import Mathlib

/-!
# Grug Merkle proof verifier (`package grug`)

A shallow embedding of `bits.go`, `hash.go`, `node.go`, `errors.go` and
`proof.go`, followed by theorems about the embedded functions.

Conventions of the embedding:

* a Go `byte` is a `Fin 256`; a `[]byte` is a `List Byte`; a `[32]byte` is a
  list of bytes together with a proof that its length is 32;
* a nilable pointer `*T` is an `Option T`;
* a Go `error` result is an `Outcome`: `nil`, one of the registered errors, or
  `panic` when the Go runtime would abort (index out of range, nil pointer
  dereference);
* `crypto/sha256` is a library, not part of the package: the digest function is
  the parameter `H` of every function that hashes;
* `encoding/json` and `encoding/base64` are libraries too: the four calls that
  hash.go makes are the fields of the parameter `Codec`.
-/

namespace Grug

set_option maxRecDepth 100000

/-! ## Data model -/

/-- A Go `byte`. -/
abbrev Byte := Fin 256

/-- Conversion of a number to `byte`, wrapping modulo `2^8`. -/
def toByte (n : Nat) : Byte := ⟨n % 256, Nat.mod_lt n (by decide)⟩

/-- Go `type BitArray []byte` (bits.go). -/
abbrev BitArray := List Byte

/-- Go `type Hash [32]byte` (hash.go). -/
structure Hash where
  bytes : List Byte
  size : bytes.length = 32
deriving DecidableEq

/-- Go `h[:]`, the slice over the 32 bytes of a hash. -/
abbrev Hash.slice (h : Hash) : List Byte := h.bytes

/-- Go `ZeroHash [32]byte = [32]byte{}` (node.go). -/
def ZeroHash : Hash := ⟨List.replicate 32 0, by simp⟩

/-- Go `HashPrefixInternalNode byte = 0` (node.go). -/
def HashPrefixInternalNode : Byte := 0

/-- Go `HashPrefixLeafNode byte = 1` (node.go). -/
def HashPrefixLeafNode : Byte := 1

/-- The errors registered in errors.go. -/
inductive Err where
  | ErrIncorrectHashLength
  | ErrMalformedProof
  | ErrIncorrectProofType
  | ErrUnexpectedChild
  | ErrNotCommonPrefix
  | ErrRootHashMismatch
deriving DecidableEq, Repr

/-- What a call returning `error` does: return `nil`, return an error, or
abort with a runtime panic. -/
inductive Outcome where
  | nil
  | err (e : Err)
  | panic
deriving DecidableEq, Repr

/-- Go `type InternalNode struct` (node.go). -/
structure InternalNode where
  LeftHash : Option Hash
  RightHash : Option Hash
deriving DecidableEq

/-- Go `type LeafNode struct` (node.go). -/
structure LeafNode where
  KeyHash : Hash
  ValueHash : Hash
deriving DecidableEq

/-- Go `type Node struct` (node.go). -/
structure Node where
  Internal : Option InternalNode
  Leaf : Option LeafNode
deriving DecidableEq

/-- Go `type MembershipProof struct` (proof.go). -/
structure MembershipProof where
  SiblingHashes : List (Option Hash)
deriving DecidableEq

/-- Go `type NonMembershipProof struct` (proof.go). -/
structure NonMembershipProof where
  Node : Node
  SiblingHashes : List (Option Hash)
deriving DecidableEq

/-- Go `type Proof struct` (proof.go). -/
structure Proof where
  Membership : Option MembershipProof
  NonMembership : Option NonMembershipProof
deriving DecidableEq

/-! ## bits.go -/

/-- Go `func (bits BitArray) BitAtIndex(i int) byte`:
`(bits[i / 8] >> (i % 8)) & 1`. The result is `none` when `bits[i / 8]` is an
index out of range, where Go panics. -/
def BitAtIndex (bits : BitArray) (i : Nat) : Option Byte :=
  let quotient := i / 8
  let remainder := i % 8
  match bits.get? quotient with
  | none => none
  | some b => some (toByte ((b.val >>> remainder) &&& 1))

/-! ## node.go -/

/-- Go `func (node Node) Validate() error`. -/
def Node.Validate (node : Node) : Outcome :=
  if node.Internal.isNone == node.Leaf.isNone then
    Outcome.err Err.ErrMalformedProof
  else
    Outcome.nil

/-- The bytes written to the hasher by `InternalNode.Hash`. -/
def InternalNode.preimage (internalNode : InternalNode) : List Byte :=
  [HashPrefixInternalNode]
    ++ (match internalNode.LeftHash with
        | some h => h.slice
        | none => ZeroHash.slice)
    ++ (match internalNode.RightHash with
        | some h => h.slice
        | none => ZeroHash.slice)

/-- Go `func (internalNode InternalNode) Hash() Hash`. -/
def InternalNode.Hash (H : List Byte → Hash) (internalNode : InternalNode) : Hash :=
  H internalNode.preimage

/-- The bytes written to the hasher by `LeafNode.Hash`. -/
def LeafNode.preimage (leafNode : LeafNode) : List Byte :=
  [HashPrefixLeafNode] ++ leafNode.KeyHash.slice ++ leafNode.ValueHash.slice

/-- Go `func (leafNode LeafNode) Hash() Hash`. -/
def LeafNode.Hash (H : List Byte → Hash) (leafNode : LeafNode) : Hash :=
  H leafNode.preimage

/-! ## proof.go -/

/-- Go `func (proof Proof) Validate() error`. The call
`proof.NonMembership.Node.Validate()` is made when `NonMembership` is
populated, and its result is dropped. -/
def Proof.Validate (proof : Proof) : Outcome :=
  if proof.Membership.isNone == proof.NonMembership.isNone then
    Outcome.err Err.ErrMalformedProof
  else
    match proof.NonMembership with
    | some nonMembership =>
      let _ := nonMembership.Node.Validate
      Outcome.nil
    | none => Outcome.nil

/-- The loop of `computeAndCompareRootHash`,
`for depth := len(siblingHashes) - 1; depth >= 0; depth--`. The counter is
`depth + 1`: at `0` the loop has ended and the current hash is returned; `none`
is a runtime panic. -/
def computeRootLoop (H : List Byte → Hash) (bits : BitArray)
    (siblingHashes : List (Option Hash)) : Nat → Hash → Option Hash
  | 0, currentHash => some currentHash
  | depth + 1, currentHash =>
    match BitAtIndex bits depth with
    | none => none
    | some bit =>
      match siblingHashes.get? depth with
      | none => none
      | some siblingHash =>
        if bit = 0 then
          computeRootLoop H bits siblingHashes depth
            (InternalNode.Hash H { LeftHash := some currentHash, RightHash := siblingHash })
        else
          computeRootLoop H bits siblingHashes depth
            (InternalNode.Hash H { LeftHash := siblingHash, RightHash := some currentHash })

/-- Go `func computeAndCompareRootHash(rootHash, bits, siblingHashes, currentHash) error`. -/
def computeAndCompareRootHash (H : List Byte → Hash) (rootHash : Hash) (bits : BitArray)
    (siblingHashes : List (Option Hash)) (currentHash : Hash) : Outcome :=
  match computeRootLoop H bits siblingHashes siblingHashes.length currentHash with
  | none => Outcome.panic
  | some currentHash =>
    if currentHash ≠ rootHash then
      Outcome.err Err.ErrRootHashMismatch
    else
      Outcome.nil

/-- Go `func (memberProof MembershipProof) VerifyMembership(rootHash, keyHash, valueHash Hash) error`. -/
def MembershipProof.VerifyMembership (H : List Byte → Hash) (memberProof : MembershipProof)
    (rootHash keyHash valueHash : Hash) : Outcome :=
  let bits : BitArray := keyHash.slice
  let currentHash := LeafNode.Hash H { KeyHash := keyHash, ValueHash := valueHash }
  computeAndCompareRootHash H rootHash bits memberProof.SiblingHashes currentHash

/-- The loop `for i := 0; i < len(SiblingHashes); i++` of the leaf branch of
`NonMembershipProof.VerifyNonMembership`, with `remaining` iterations left
from index `i`. The result is `none` on a runtime panic, `some true` when the loop
returned `ErrNotCommonPrefix`, `some false` when it ran to its end. -/
def commonPrefixLoop (existBits bits : BitArray) : Nat → Nat → Option Bool
  | 0, _ => some false
  | remaining + 1, i =>
    match BitAtIndex existBits i, BitAtIndex bits i with
    | some a, some b =>
      if a ≠ b then some true else commonPrefixLoop existBits bits remaining (i + 1)
    | _, _ => none

/-- The `if nonMemberProof.Node.Internal != nil { ... } else { ... }` block of
`NonMembershipProof.VerifyNonMembership`: it either leaves the function early
(`Except.error`, with what the call does) or assigns `currentHash`
(`Except.ok`). Reading `Node.Leaf.KeyHash` through a nil `Leaf` is a nil pointer
dereference. -/
def NonMembershipProof.witnessHash (H : List Byte → Hash)
    (nonMemberProof : NonMembershipProof) (bits : BitArray) : Except Outcome Hash :=
  match nonMemberProof.Node.Internal with
  | some internal =>
    match BitAtIndex bits nonMemberProof.SiblingHashes.length with
    | none => Except.error Outcome.panic
    | some bit =>
      if bit = 0 then
        if internal.LeftHash.isSome then
          Except.error (Outcome.err Err.ErrUnexpectedChild)
        else
          Except.ok (InternalNode.Hash H internal)
      else
        if internal.RightHash.isSome then
          Except.error (Outcome.err Err.ErrUnexpectedChild)
        else
          Except.ok (InternalNode.Hash H internal)
  | none =>
    match nonMemberProof.Node.Leaf with
    | none => Except.error Outcome.panic
    | some leaf =>
      let existBits : BitArray := leaf.KeyHash.slice
      match commonPrefixLoop existBits bits nonMemberProof.SiblingHashes.length 0 with
      | none => Except.error Outcome.panic
      | some true => Except.error (Outcome.err Err.ErrNotCommonPrefix)
      | some false => Except.ok (LeafNode.Hash H leaf)

/-- Go `func (nonMemberProof NonMembershipProof) VerifyNonMembership(rootHash, keyHash Hash) error`. -/
def NonMembershipProof.VerifyNonMembership (H : List Byte → Hash)
    (nonMemberProof : NonMembershipProof) (rootHash keyHash : Hash) : Outcome :=
  let bits : BitArray := keyHash.slice
  match nonMemberProof.witnessHash H bits with
  | Except.error outcome => outcome
  | Except.ok currentHash =>
    computeAndCompareRootHash H rootHash bits nonMemberProof.SiblingHashes currentHash

/-- Go `func (proof Proof) VerifyMembership(rootHash, keyHash, valueHash Hash) error`. -/
def Proof.VerifyMembership (H : List Byte → Hash) (proof : Proof)
    (rootHash keyHash valueHash : Hash) : Outcome :=
  match proof.Membership with
  | none => Outcome.err Err.ErrIncorrectProofType
  | some membership => membership.VerifyMembership H rootHash keyHash valueHash

/-- Go `func (proof Proof) VerifyNonMembership(rootHash, keyHash Hash) error`. -/
def Proof.VerifyNonMembership (H : List Byte → Hash) (proof : Proof)
    (rootHash keyHash : Hash) : Outcome :=
  match proof.NonMembership with
  | none => Outcome.err Err.ErrIncorrectProofType
  | some nonMembership => nonMembership.VerifyNonMembership H rootHash keyHash

/-! ## hash.go -/

/-- A Go `string`: a sequence of bytes. -/
abbrev GoString := List Byte

/-- The functions of the libraries `encoding/json` and `encoding/base64` that
hash.go calls; they are not part of the package. A result `none` is a call that
returns a non-nil error. -/
structure Codec where
  /-- Go `json.Marshal` applied to a string. -/
  jsonMarshal : GoString → Option (List Byte)
  /-- Go `json.Unmarshal(data, &s)` with `s` a fresh string variable. -/
  jsonUnmarshal : List Byte → Option GoString
  /-- Go `base64.StdEncoding.EncodeToString`. -/
  base64EncodeToString : List Byte → GoString
  /-- Go `base64.StdEncoding.DecodeString`. -/
  base64DecodeString : GoString → Option (List Byte)

/-- What `Hash.UnmarshalJSON` returns: `nil`, the error of `json.Unmarshal`, the
error of `DecodeString`, or a registered error. -/
inductive UnmarshalOutcome where
  | nil
  | jsonError
  | base64Error
  | err (e : Err)
deriving DecidableEq, Repr

/-- Go builtin `copy(dst, src)`: the first `min(len(dst), len(src))` elements of
`dst` are replaced by those of `src`; the result is the new content of `dst`. -/
def goCopy (dst src : List Byte) : List Byte :=
  src.take dst.length ++ dst.drop src.length

/-- Go `func (h Hash) MarshalJSON() ([]byte, error)`. -/
def Hash.MarshalJSON (codec : Codec) (h : Hash) : Option (List Byte) :=
  codec.jsonMarshal (codec.base64EncodeToString h.slice)

/-- Go `func (h *Hash) UnmarshalJSON(data []byte) error`. The receiver is a
pointer: the result is the content of `*h` after the call, with the returned
error. -/
def Hash.UnmarshalJSON (codec : Codec) (h : Hash) (data : List Byte) :
    Hash × UnmarshalOutcome :=
  match codec.jsonUnmarshal data with
  | none => (h, UnmarshalOutcome.jsonError)
  | some s =>
    match codec.base64DecodeString s with
    | none => (h, UnmarshalOutcome.base64Error)
    | some decoded =>
      if decoded.length ≠ 32 then
        (h, UnmarshalOutcome.err Err.ErrIncorrectHashLength)
      else
        (⟨goCopy h.slice decoded, by
            simp only [goCopy, List.length_append, List.length_take, List.length_drop, h.size]
            omega⟩,
          UnmarshalOutcome.nil)

/-! ## Reference definitions used in the statements -/

/-- The bit of byte `i / 8` at position `i mod 8` counted from the most
significant bit, `(b[i / 8] >> (7 - i mod 8)) & 1`; `none` outside the buffer. -/
def msbFirstBit (b : BitArray) (i : Nat) : Option Nat :=
  (b.get? (i / 8)).map fun x => (x.val >>> (7 - i % 8)) &&& 1

/-- The numeric value of the byte returned by `BitAtIndex`, `0` where the call
panics. -/
def bitValue (b : BitArray) (i : Nat) : Nat :=
  match BitAtIndex b i with
  | some bit => bit.val
  | none => 0

/-- One step of the recomputation as the specification words it, at `depth`:
`hash_internal(current, sibling[depth])` when the bit of the key hash at
`depth` is 0, `hash_internal(sibling[depth], current)` when it is 1. -/
def foldStep (H : List Byte → Hash) (bits : BitArray) (siblings : List (Option Hash))
    (current : Hash) (depth : Nat) : Hash :=
  if BitAtIndex bits depth = some 0 then
    InternalNode.Hash H { LeftHash := some current, RightHash := (siblings.get? depth).join }
  else if BitAtIndex bits depth = some 1 then
    InternalNode.Hash H { LeftHash := (siblings.get? depth).join, RightHash := some current }
  else
    current

/-- The value obtained from `start` by applying `foldStep` for
`depth = L - 1` down to `0`, where `L` is the length of the sibling list. -/
def foldedRoot (H : List Byte → Hash) (bits : BitArray) (siblings : List (Option Hash))
    (start : Hash) : Hash :=
  (List.range siblings.length).reverse.foldl (foldStep H bits siblings) start

/-- The candidate root of the two-level scenario as the specification words it:
`c1 = hash_internal(left = current, right = S1)`, then
`hash_internal(left = S0, right = c1)`. -/
def claimedTwoLevelRoot (H : List Byte → Hash) (current : Hash) (S0 S1 : Option Hash) : Hash :=
  let c1 := InternalNode.Hash H { LeftHash := some current, RightHash := S1 }
  InternalNode.Hash H { LeftHash := S0, RightHash := some c1 }

/-- The candidate root of the two-level scenario with the sides the loop gives
them for the bits `(0, 1)`: `c1 = hash_internal(left = S1, right = current)`, then
`hash_internal(left = c1, right = S0)`. -/
def twoLevelRoot (H : List Byte → Hash) (current : Hash) (S0 S1 : Option Hash) : Hash :=
  let c1 := InternalNode.Hash H { LeftHash := S1, RightHash := some current }
  InternalNode.Hash H { LeftHash := some c1, RightHash := S0 }

/-- The polynomial checksum of a byte string: from `acc`, each byte `b` replaces
`acc` by `(31 * acc + b + 1) mod 65521`. -/
def checksum : Nat → List Byte → Nat
  | acc, [] => acc
  | acc, b :: bs => checksum ((31 * acc + b.val + 1) % 65521) bs

/-- A concrete digest function, for evaluating the verifier on explicit
inputs: the first two bytes of the digest of `p` are the low and the high byte of
`checksum 7 p`, the other 30 bytes are zero. -/
def sampleH (p : List Byte) : Hash :=
  ⟨toByte (checksum 7 p) :: toByte (checksum 7 p / 256) :: List.replicate 30 0, by simp⟩

/-- The hash whose 32 bytes are all `x`. -/
def constHash (x : Byte) : Hash := ⟨List.replicate 32 x, by simp⟩

/-- The hash whose first byte is `x` and whose other bytes are zero. -/
def firstByteHash (x : Byte) : Hash := ⟨x :: List.replicate 31 0, by simp⟩

/-- The digest that enters the hash for an optional child or sibling: the
digest itself when present, the all-zero digest when absent. -/
def orZero (h : Option Hash) : Hash :=
  match h with
  | some x => x
  | none => ZeroHash

/-- Two sibling entries of which one is obtained from the other by replacing an
absent entry by the zero digest, or the zero digest by an absent entry, or by
leaving it as it is. -/
def AbsentOrZero (a b : Option Hash) : Prop :=
  a = b ∨ (a = none ∧ b = some ZeroHash) ∨ (a = some ZeroHash ∧ b = none)

/-- The hash of the witness node of a non-membership proof from which the
recomputation starts: `hash_internal(witness.left, witness.right)` for an
Internal witness, `hash_leaf(witness.key_hash, witness.value_hash)` for a Leaf
witness. -/
def witnessStart (H : List Byte → Hash) (node : Node) : Option Hash :=
  match node.Internal, node.Leaf with
  | some internal, _ => some (InternalNode.Hash H internal)
  | none, some leaf => some (LeafNode.Hash H leaf)
  | none, none => none

/-- The digest function `H` has no collision among the byte strings of `S`: two
byte strings of `S` with the same digest are equal. -/
def CollisionFreeOn (H : List Byte → Hash) (S : List (List Byte)) : Prop :=
  ∀ p ∈ S, ∀ q ∈ S, H p = H q → p = q

instance CollisionFreeOn.decidable (H : List Byte → Hash) (S : List (List Byte)) :
    Decidable (CollisionFreeOn H S) := by
  unfold CollisionFreeOn
  exact inferInstance

/-- The internal node that the loop of `computeAndCompareRootHash` hashes at
`depth`: the current hash on the left when the bit at `depth` is 0, on the right
otherwise, the sibling entry at `depth` on the other side. -/
def loopNode (bits : BitArray) (siblingHashes : List (Option Hash)) (currentHash : Hash)
    (depth : Nat) : InternalNode :=
  if BitAtIndex bits depth = some 0 then
    { LeftHash := some currentHash, RightHash := (siblingHashes.get? depth).join }
  else
    { LeftHash := (siblingHashes.get? depth).join, RightHash := some currentHash }

/-- The byte strings hashed by the loop of `computeAndCompareRootHash` from the
counter `depth + 1` down, in the order in which they are hashed. -/
def loopPreimages (H : List Byte → Hash) (bits : BitArray)
    (siblingHashes : List (Option Hash)) : Nat → Hash → List (List Byte)
  | 0, _ => []
  | depth + 1, currentHash =>
    (loopNode bits siblingHashes currentHash depth).preimage
      :: loopPreimages H bits siblingHashes depth
          (InternalNode.Hash H (loopNode bits siblingHashes currentHash depth))

/-- The byte strings hashed by `MembershipProof.VerifyMembership`: the leaf of
the key and value hashes, then the internal nodes of the loop. -/
def membershipPreimages (H : List Byte → Hash) (memberProof : MembershipProof)
    (keyHash valueHash : Hash) : List (List Byte) :=
  LeafNode.preimage { KeyHash := keyHash, ValueHash := valueHash }
    :: loopPreimages H keyHash.slice memberProof.SiblingHashes
        memberProof.SiblingHashes.length
        (LeafNode.Hash H { KeyHash := keyHash, ValueHash := valueHash })

/-- The character of the standard base64 alphabet with value `n < 64`. -/
def base64Char (n : Nat) : Byte :=
  toByte (if n < 26 then 65 + n else if n < 52 then 71 + n else if n < 62 then n - 4
    else if n = 62 then 43 else 47)

/-- The value of a character of the standard base64 alphabet, `none` for any
other byte. -/
def base64Value (c : Byte) : Option Nat :=
  if 65 ≤ c.val ∧ c.val ≤ 90 then some (c.val - 65)
  else if 97 ≤ c.val ∧ c.val ≤ 122 then some (c.val - 71)
  else if 48 ≤ c.val ∧ c.val ≤ 57 then some (c.val + 4)
  else if c.val = 43 then some 62
  else if c.val = 47 then some 63
  else none

/-- Standard base64 encoding with `=` padding, for evaluating hash.go on explicit
inputs. -/
def sampleBase64Encode : List Byte → GoString
  | a :: b :: c :: rest =>
    base64Char (a.val / 4) :: base64Char (a.val % 4 * 16 + b.val / 16)
      :: base64Char (b.val % 16 * 4 + c.val / 64) :: base64Char (c.val % 64)
      :: sampleBase64Encode rest
  | [a, b] =>
    [base64Char (a.val / 4), base64Char (a.val % 4 * 16 + b.val / 16),
      base64Char (b.val % 16 * 4), 61]
  | [a] => [base64Char (a.val / 4), base64Char (a.val % 4 * 16), 61, 61]
  | [] => []

/-- Standard base64 decoding with `=` padding, for evaluating hash.go on explicit
inputs; `none` on input that is not valid base64. -/
def sampleBase64Decode : GoString → Option (List Byte)
  | [] => some []
  | c0 :: c1 :: c2 :: c3 :: rest =>
    match base64Value c0, base64Value c1 with
    | some v0, some v1 =>
      if c2.val = 61 ∧ c3.val = 61 ∧ rest.isEmpty then
        if v1 % 16 = 0 then some [toByte (v0 * 4 + v1 / 16)] else none
      else
        match base64Value c2 with
        | none => none
        | some v2 =>
          if c3.val = 61 ∧ rest.isEmpty then
            if v2 % 4 = 0 then
              some [toByte (v0 * 4 + v1 / 16), toByte (v1 % 16 * 16 + v2 / 4)]
            else none
          else
            match base64Value c3 with
            | none => none
            | some v3 =>
              (sampleBase64Decode rest).map fun tail =>
                toByte (v0 * 4 + v1 / 16) :: toByte (v1 % 16 * 16 + v2 / 4)
                  :: toByte (v2 % 4 * 64 + v3) :: tail
    | _, _ => none
  | _ => none

/-- JSON encoding of a string that has no character to escape: the string
between two double quotes. -/
def sampleJsonMarshal (s : GoString) : Option (List Byte) :=
  some (34 :: (s ++ [34]))

/-- JSON decoding of a string literal without escapes: the bytes between the two
double quotes; `none` on any other input. -/
def sampleJsonUnmarshal (data : List Byte) : Option GoString :=
  match data with
  | [] => none
  | first :: rest =>
    if first.val = 34 ∧ rest.getLast? = some 34
        ∧ rest.dropLast.all (fun c => c.val ≠ 34 ∧ c.val ≠ 92) then
      some rest.dropLast
    else none

/-- A concrete codec, for evaluating hash.go on explicit inputs. -/
def sampleCodec : Codec :=
  { jsonMarshal := sampleJsonMarshal
    jsonUnmarshal := sampleJsonUnmarshal
    base64EncodeToString := sampleBase64Encode
    base64DecodeString := sampleBase64Decode }

/-! ## Bit reader -/

theorem toByte_val_of_le_one {n : Nat} (h : n ≤ 1) : (toByte n).val = n := by
  show n % 256 = n
  omega

theorem shift_and_one_le (x r : Nat) : (x >>> r) &&& 1 ≤ 1 := by
  rw [Nat.and_one_is_mod]
  omega

theorem BitAtIndex_of_lt (b : BitArray) (i : Nat) (h : i / 8 < b.length) :
    BitAtIndex b i = some (toByte (((b.get ⟨i / 8, h⟩).val >>> (i % 8)) &&& 1)) := by
  simp [BitAtIndex, List.getElem?_eq_getElem h]

theorem BitAtIndex_eq_none_iff (b : BitArray) (i : Nat) :
    BitAtIndex b i = none ↔ 8 * b.length ≤ i := by
  by_cases h : i / 8 < b.length
  · rw [BitAtIndex_of_lt b i h]
    simp only [reduceCtorEq, false_iff]
    omega
  · have hq : b.get? (i / 8) = none := List.get?_eq_none.mpr (by omega)
    simp only [BitAtIndex, hq, true_iff]
    omega

theorem byte_bits_sum (x : Byte) :
    ∑ j in Finset.range 8, ((x.val >>> j) &&& 1) * 2 ^ j = x.val := by
  revert x
  decide

theorem BitAtIndex_zero_or_one (b : BitArray) (i : Nat) (h : i < 8 * b.length) :
    BitAtIndex b i = some 0 ∨ BitAtIndex b i = some 1 := by
  have hq : i / 8 < b.length := by omega
  rw [BitAtIndex_of_lt b i hq]
  have hle := shift_and_one_le (b.get ⟨i / 8, hq⟩).val (i % 8)
  rcases Nat.le_one_iff_eq_zero_or_eq_one.mp hle with h0 | h1
  · left; rw [h0]; rfl
  · right; rw [h1]; rfl

theorem Hash.slice_length (h : Hash) : h.slice.length = 32 := h.size

/-! ## The recomputation loop -/

theorem computeRootLoop_eq_foldl (H : List Byte → Hash) (bits : BitArray)
    (siblings : List (Option Hash)) :
    ∀ (n : Nat), n ≤ siblings.length → n ≤ 8 * bits.length → ∀ current : Hash,
      computeRootLoop H bits siblings n current
        = some ((List.range n).reverse.foldl (foldStep H bits siblings) current) := by
  intro n
  induction n with
  | zero => intro _ _ current; rfl
  | succ n ih =>
    intro hn hb current
    have hs : siblings.get? n = some (siblings.get ⟨n, by omega⟩) :=
      List.get?_eq_get (by omega)
    rw [List.range_succ, List.reverse_append, List.reverse_singleton, List.singleton_append,
      List.foldl_cons]
    rcases BitAtIndex_zero_or_one bits n (by omega) with h0 | h1
    · have hstep : foldStep H bits siblings current n
          = InternalNode.Hash H
              { LeftHash := some current, RightHash := siblings.get ⟨n, by omega⟩ } := by
        rw [foldStep, if_pos h0, hs]; rfl
      simp only [computeRootLoop, h0, hs, if_true]
      rw [ih (by omega) (by omega), hstep]
    · have hne : ¬ ((1 : Byte) = 0) := by decide
      have hne2 : ¬ (some (1 : Byte) = some 0) := by decide
      have hstep : foldStep H bits siblings current n
          = InternalNode.Hash H
              { LeftHash := siblings.get ⟨n, by omega⟩, RightHash := some current } := by
        rw [foldStep, h1, if_neg hne2, if_pos rfl, hs]; rfl
      simp only [computeRootLoop, h1, hs, if_neg hne]
      rw [ih (by omega) (by omega), hstep]

theorem computeAndCompareRootHash_eq (H : List Byte → Hash) (rootHash : Hash)
    (bits : BitArray) (siblings : List (Option Hash)) (current : Hash)
    (hb : siblings.length ≤ 8 * bits.length) :
    computeAndCompareRootHash H rootHash bits siblings current
      = if foldedRoot H bits siblings current = rootHash then Outcome.nil
        else Outcome.err Err.ErrRootHashMismatch := by
  unfold computeAndCompareRootHash
  rw [computeRootLoop_eq_foldl H bits siblings siblings.length (le_refl _) hb current]
  show (if ¬ foldedRoot H bits siblings current = rootHash then _ else _) = _
  by_cases h : foldedRoot H bits siblings current = rootHash <;> simp [h]

theorem computeRootLoop_none_of_gt (H : List Byte → Hash) (bits : BitArray)
    (siblings : List (Option Hash)) (n : Nat) (hn : 8 * bits.length < n) (current : Hash) :
    computeRootLoop H bits siblings n current = none := by
  cases n with
  | zero => omega
  | succ m =>
    have hnone : BitAtIndex bits m = none := (BitAtIndex_eq_none_iff bits m).mpr (by omega)
    simp only [computeRootLoop, hnone]

/-! ## The common-prefix loop -/

theorem commonPrefixLoop_self (bits : BitArray) :
    ∀ (n i : Nat), commonPrefixLoop bits bits n i
      = if n = 0 ∨ i + n ≤ 8 * bits.length then some false else none := by
  intro n
  induction n with
  | zero => intro i; simp [commonPrefixLoop]
  | succ n ih =>
    intro i
    by_cases hi : i < 8 * bits.length
    · have hrec : commonPrefixLoop bits bits (n + 1) i = commonPrefixLoop bits bits n (i + 1) := by
        rcases BitAtIndex_zero_or_one bits i hi with h | h <;>
          simp only [commonPrefixLoop, h, ne_eq, not_true_eq_false, if_false]
      rw [hrec, ih (i + 1)]
      by_cases hc : i + (n + 1) ≤ 8 * bits.length
      · rw [if_pos (Or.inr (by omega)), if_pos (Or.inr hc)]
      · by_cases hn : n = 0
        · omega
        · rw [if_neg (by omega), if_neg (by omega)]
    · have hnone : BitAtIndex bits i = none := (BitAtIndex_eq_none_iff bits i).mpr (by omega)
      have hif : ¬ (n + 1 = 0 ∨ i + (n + 1) ≤ 8 * bits.length) := by omega
      simp only [commonPrefixLoop, hnone, if_neg hif]

theorem commonPrefixLoop_spec (existBits bits : BitArray) :
    ∀ (n i : Nat), i + n ≤ 8 * existBits.length → i + n ≤ 8 * bits.length →
      (commonPrefixLoop existBits bits n i = some true
          ∧ ∃ j, i ≤ j ∧ j < i + n ∧ BitAtIndex existBits j ≠ BitAtIndex bits j)
        ∨ (commonPrefixLoop existBits bits n i = some false
          ∧ ¬ ∃ j, i ≤ j ∧ j < i + n ∧ BitAtIndex existBits j ≠ BitAtIndex bits j) := by
  intro n
  induction n with
  | zero =>
    intro i _ _
    right
    refine ⟨rfl, ?_⟩
    rintro ⟨j, h1, h2, _⟩
    omega
  | succ n ih =>
    intro i he hb
    obtain ⟨a, ha⟩ : ∃ a, BitAtIndex existBits i = some a := by
      rcases BitAtIndex_zero_or_one existBits i (by omega) with h | h <;> exact ⟨_, h⟩
    obtain ⟨c, hc⟩ : ∃ c, BitAtIndex bits i = some c := by
      rcases BitAtIndex_zero_or_one bits i (by omega) with h | h <;> exact ⟨_, h⟩
    by_cases hac : a = c
    · have hrec : commonPrefixLoop existBits bits (n + 1) i
          = commonPrefixLoop existBits bits n (i + 1) := by
        simp only [commonPrefixLoop, ha, hc, hac, ne_eq, not_true_eq_false, if_false]
      rw [hrec]
      rcases ih (i + 1) (by omega) (by omega) with ⟨h1, j, hj1, hj2, hj3⟩ | ⟨h1, h2⟩
      · left
        exact ⟨h1, j, by omega, by omega, hj3⟩
      · right
        refine ⟨h1, ?_⟩
        rintro ⟨j, hj1, hj2, hj3⟩
        by_cases hji : j = i
        · subst hji
          rw [ha, hc, hac] at hj3
          exact hj3 rfl
        · exact h2 ⟨j, by omega, by omega, hj3⟩
    · left
      refine ⟨?_, i, le_refl _, by omega, ?_⟩
      · simp only [commonPrefixLoop, ha, hc, ne_eq, hac, not_false_eq_true, if_true]
      · rw [ha, hc]
        intro h
        exact hac (Option.some.inj h)

/-! ## Claims -/

/-- Claim C1. For every root, key hash, value hash and membership proof whose
sibling list has length `L ≤ 256`, `Proof.VerifyMembership` succeeds exactly when
the root equals the value obtained from `hash_leaf(keyHash, valueHash)` by the
bottom-up recomputation (for `depth = L - 1` down to `0`, `hash_internal(current,
sibling[depth])` when the bit of the key hash at `depth` is 0 and
`hash_internal(sibling[depth], current)` when it is 1); in every other case it
returns `RootHashMismatch`. -/
theorem Proof.VerifyMembership_iff_foldedRoot (H : List Byte → Hash) (proof : Proof)
    (membership : MembershipProof) (rootHash keyHash valueHash : Hash)
    (hm : proof.Membership = some membership)
    (hL : membership.SiblingHashes.length ≤ 256) :
    (proof.VerifyMembership H rootHash keyHash valueHash = Outcome.nil
        ↔ rootHash = foldedRoot H keyHash.slice membership.SiblingHashes
            (LeafNode.Hash H { KeyHash := keyHash, ValueHash := valueHash }))
      ∧ (rootHash ≠ foldedRoot H keyHash.slice membership.SiblingHashes
            (LeafNode.Hash H { KeyHash := keyHash, ValueHash := valueHash })
          → proof.VerifyMembership H rootHash keyHash valueHash
              = Outcome.err Err.ErrRootHashMismatch) := by
  have hb : membership.SiblingHashes.length ≤ 8 * keyHash.slice.length := by
    rw [Hash.slice_length]; omega
  have hrun : proof.VerifyMembership H rootHash keyHash valueHash
      = if foldedRoot H keyHash.slice membership.SiblingHashes
            (LeafNode.Hash H { KeyHash := keyHash, ValueHash := valueHash }) = rootHash
        then Outcome.nil else Outcome.err Err.ErrRootHashMismatch := by
    simp only [Proof.VerifyMembership, hm, MembershipProof.VerifyMembership]
    exact computeAndCompareRootHash_eq H rootHash keyHash.slice _ _ hb
  rw [hrun]
  constructor
  · constructor
    · intro h
      by_contra hne
      rw [if_neg (fun e => hne e.symm)] at h
      cases h
    · intro h
      rw [if_pos h.symm]
  · intro hne
    rw [if_neg (fun e => hne e.symm)]

/-- Witness of `Proof.VerifyMembership_iff_foldedRoot`: a two-sibling membership
proof under the digest function `sampleH`. -/
theorem Proof.VerifyMembership_iff_foldedRoot_witness :
    ((Proof.mk (some ⟨[some (constHash 7), none]⟩) none).VerifyMembership sampleH
          (constHash 1) (firstByteHash 2) (constHash 4) = Outcome.nil
        ↔ constHash 1 = foldedRoot sampleH (firstByteHash 2).slice [some (constHash 7), none]
            (LeafNode.Hash sampleH { KeyHash := firstByteHash 2, ValueHash := constHash 4 }))
      ∧ (constHash 1 ≠ foldedRoot sampleH (firstByteHash 2).slice [some (constHash 7), none]
            (LeafNode.Hash sampleH { KeyHash := firstByteHash 2, ValueHash := constHash 4 })
          → (Proof.mk (some ⟨[some (constHash 7), none]⟩) none).VerifyMembership sampleH
              (constHash 1) (firstByteHash 2) (constHash 4)
              = Outcome.err Err.ErrRootHashMismatch) :=
  Proof.VerifyMembership_iff_foldedRoot sampleH _ ⟨[some (constHash 7), none]⟩ _ _ _ rfl
    (by decide)

/-- Claim C2, evaluated on the code. A non-membership proof whose witness is the
leaf of the target key itself runs exactly as the membership proof with the same
sibling list: for every digest function, root, key hash, value hash and sibling
list the two calls return the same outcome. In particular, under the root
`hash_leaf(keyHash, valueHash)` with no sibling, `VerifyMembership` succeeds and
`VerifyNonMembership` of the same key hash succeeds too. -/
theorem VerifyNonMembership_accepts_leaf_of_target_key (H : List Byte → Hash)
    (keyHash valueHash : Hash) :
    (∀ (siblings : List (Option Hash)) (rootHash : Hash),
        NonMembershipProof.VerifyNonMembership H
            { Node := { Internal := none,
                        Leaf := some { KeyHash := keyHash, ValueHash := valueHash } },
              SiblingHashes := siblings } rootHash keyHash
          = MembershipProof.VerifyMembership H { SiblingHashes := siblings }
              rootHash keyHash valueHash)
      ∧ MembershipProof.VerifyMembership H { SiblingHashes := [] }
            (LeafNode.Hash H { KeyHash := keyHash, ValueHash := valueHash })
            keyHash valueHash = Outcome.nil
      ∧ NonMembershipProof.VerifyNonMembership H
            { Node := { Internal := none,
                        Leaf := some { KeyHash := keyHash, ValueHash := valueHash } },
              SiblingHashes := [] }
            (LeafNode.Hash H { KeyHash := keyHash, ValueHash := valueHash })
            keyHash = Outcome.nil := by
  refine ⟨?_, ?_, ?_⟩
  · intro siblings rootHash
    simp only [NonMembershipProof.VerifyNonMembership, NonMembershipProof.witnessHash,
      MembershipProof.VerifyMembership, commonPrefixLoop_self, Nat.zero_add]
    by_cases hL : siblings.length ≤ 8 * keyHash.slice.length
    · simp only [if_pos (Or.inr hL)]
    · have hif : ¬ (siblings.length = 0 ∨ siblings.length ≤ 8 * keyHash.slice.length) := by
        omega
      simp only [if_neg hif, computeAndCompareRootHash,
        computeRootLoop_none_of_gt H keyHash.slice siblings siblings.length (by omega)]
  · simp [MembershipProof.VerifyMembership, computeAndCompareRootHash, computeRootLoop]
  · simp [NonMembershipProof.VerifyNonMembership, NonMembershipProof.witnessHash,
      commonPrefixLoop, computeAndCompareRootHash, computeRootLoop]

/-- Claim C3, evaluated on the code. `Proof.Validate` returns `nil` on every
proof in which only `NonMembership` is populated, whatever its witness node: also
when the witness has neither `Internal` nor `Leaf` populated, or both, where
`Node.Validate` returns `MalformedProof`. -/
theorem Proof.Validate_ignores_witness_node (siblings : List (Option Hash))
    (internal : InternalNode) (leaf : LeafNode) :
    (∀ nonMembership : NonMembershipProof,
        Proof.Validate { Membership := none, NonMembership := some nonMembership }
          = Outcome.nil)
      ∧ Node.Validate { Internal := none, Leaf := none } = Outcome.err Err.ErrMalformedProof
      ∧ Proof.Validate
            { Membership := none,
              NonMembership := some { Node := { Internal := none, Leaf := none },
                                      SiblingHashes := siblings } } = Outcome.nil
      ∧ Node.Validate { Internal := some internal, Leaf := some leaf }
          = Outcome.err Err.ErrMalformedProof
      ∧ Proof.Validate
            { Membership := none,
              NonMembership := some { Node := { Internal := some internal, Leaf := some leaf },
                                      SiblingHashes := siblings } } = Outcome.nil := by
  refine ⟨?_, ?_, ?_, ?_, ?_⟩ <;> intros <;> simp [Proof.Validate, Node.Validate]

/-- Claim C4, evaluated on the code. The verification entry points do not
validate the proof. With both `Membership` and `NonMembership` populated,
`Proof.Validate` returns `MalformedProof` and `Proof.VerifyMembership` succeeds
under the root `hash_leaf(keyHash, valueHash)`; with a witness node that has
neither `Internal` nor `Leaf`, `Proof.VerifyNonMembership` panics; with a
witness node that has both, `Proof.VerifyNonMembership` treats it as an internal
node and succeeds under the root `hash_internal(absent, absent)`. -/
theorem Proof.Verify_on_malformed_proof (H : List Byte → Hash) (rootHash keyHash valueHash : Hash)
    (nonMembership : NonMembershipProof) (siblings : List (Option Hash)) (leaf : LeafNode) :
    Proof.Validate { Membership := some { SiblingHashes := [] },
                     NonMembership := some nonMembership }
        = Outcome.err Err.ErrMalformedProof
      ∧ Proof.VerifyMembership H
            { Membership := some { SiblingHashes := [] }, NonMembership := some nonMembership }
            (LeafNode.Hash H { KeyHash := keyHash, ValueHash := valueHash })
            keyHash valueHash = Outcome.nil
      ∧ Proof.VerifyNonMembership H
            { Membership := none,
              NonMembership := some { Node := { Internal := none, Leaf := none },
                                      SiblingHashes := siblings } }
            rootHash keyHash = Outcome.panic
      ∧ Proof.VerifyNonMembership H
            { Membership := none,
              NonMembership := some
                { Node := { Internal := some { LeftHash := none, RightHash := none },
                            Leaf := some leaf },
                  SiblingHashes := [] } }
            (InternalNode.Hash H { LeftHash := none, RightHash := none })
            keyHash = Outcome.nil := by
  refine ⟨?_, ?_, ?_, ?_⟩
  · simp [Proof.Validate]
  · simp [Proof.VerifyMembership, MembershipProof.VerifyMembership, computeAndCompareRootHash,
      computeRootLoop]
  · simp [Proof.VerifyNonMembership, NonMembershipProof.VerifyNonMembership,
      NonMembershipProof.witnessHash]
  · rcases BitAtIndex_zero_or_one keyHash.slice 0 (by rw [Hash.slice_length]; omega) with h | h
    · simp [Proof.VerifyNonMembership, NonMembershipProof.VerifyNonMembership,
        NonMembershipProof.witnessHash, h, computeAndCompareRootHash, computeRootLoop]
    · simp [Proof.VerifyNonMembership, NonMembershipProof.VerifyNonMembership,
        NonMembershipProof.witnessHash, h, computeAndCompareRootHash, computeRootLoop]

/-- Claim C5, refuted as stated: on the one-byte buffer `[0x80]` the most
significant bit of byte 0 is 1, and `BitAtIndex` at index 0 returns 0. -/
theorem BitAtIndex_not_msb_first :
    msbFirstBit [128] 0 = some 1 ∧ Option.map Fin.val (BitAtIndex [128] 0) = some 0
      ∧ Option.map Fin.val (BitAtIndex [128] 0) ≠ msbFirstBit [128] 0 := by
  decide

/-- Claim C5, amended. For every non-empty byte buffer `b`, `BitAtIndex(b, 0)` is
the least significant bit of byte 0, and for every `i < 8 * len(b)`,
`BitAtIndex(b, i)` is the bit of byte `i / 8` at position `i mod 8` counted from the
least significant bit: the binary digit of weight `2^(i mod 8)`. -/
theorem BitAtIndex_lsb_first (b : BitArray) (i : Nat) (hb : 0 < b.length)
    (hi : i < 8 * b.length) :
    Option.map Fin.val (BitAtIndex b 0) = some ((b.get ⟨0, hb⟩).val % 2)
      ∧ Option.map Fin.val (BitAtIndex b i)
          = some ((b.get ⟨i / 8, by omega⟩).val / 2 ^ (i % 8) % 2) := by
  have key : ∀ (n : Nat) (h : n / 8 < b.length),
      Option.map Fin.val (BitAtIndex b n)
        = some ((b.get ⟨n / 8, h⟩).val / 2 ^ (n % 8) % 2) := by
    intro n h
    rw [BitAtIndex_of_lt b n h, Option.map_some', toByte_val_of_le_one (shift_and_one_le _ _),
      Nat.and_one_is_mod, Nat.shiftRight_eq_div_pow]
  refine ⟨?_, key i (by omega)⟩
  have h0 := key 0 (by simpa using hb)
  simpa using h0

/-- Witness of `BitAtIndex_lsb_first` on the two-byte buffer `[0x80, 0x01]`. -/
theorem BitAtIndex_lsb_first_witness :
    Option.map Fin.val (BitAtIndex [128, 1] 0) = some ((128 : Nat) % 2)
      ∧ Option.map Fin.val (BitAtIndex [128, 1] 8) = some ((1 : Nat) / 2 ^ (8 % 8) % 2) :=
  BitAtIndex_lsb_first [128, 1] 8 (by decide) (by decide)


/-- Claim C6. For every byte buffer `b` and every `i < 8 * len(b)`,
`BitAtIndex(b, i)` returns `(b[i / 8] >> (i mod 8)) & 1`, which is 0 or 1; and for
every byte position `k < len(b)`, the sum over `j` in `0..7` of
`BitAtIndex(b, 8k + j) * 2^j` is `b[k]`: the eight bits of a byte recover it. -/
theorem BitAtIndex_shift_and_byte_recovery (b : BitArray) (i k : Nat)
    (hi : i < 8 * b.length) (hk : k < b.length) :
    (Option.map Fin.val (BitAtIndex b i)
        = some (((b.get ⟨i / 8, by omega⟩).val >>> (i % 8)) &&& 1)
      ∧ (bitValue b i = 0 ∨ bitValue b i = 1))
    ∧ ∑ j in Finset.range 8, bitValue b (8 * k + j) * 2 ^ j = (b.get ⟨k, hk⟩).val := by
  have hval : ∀ (n : Nat) (h : n / 8 < b.length),
      bitValue b n = ((b.get ⟨n / 8, h⟩).val >>> (n % 8)) &&& 1 := by
    intro n h
    simp only [bitValue, BitAtIndex_of_lt b n h]
    exact toByte_val_of_le_one (shift_and_one_le _ _)
  have hq : i / 8 < b.length := by omega
  refine ⟨⟨?_, ?_⟩, ?_⟩
  · rw [BitAtIndex_of_lt b i hq, Option.map_some', toByte_val_of_le_one (shift_and_one_le _ _)]
  · rw [hval i hq]
    have := shift_and_one_le (b.get ⟨i / 8, hq⟩).val (i % 8)
    omega
  · rw [← byte_bits_sum (b.get ⟨k, hk⟩)]
    apply Finset.sum_congr rfl
    intro j hj
    have hj8 : j < 8 := Finset.mem_range.mp hj
    have h1 : (8 * k + j) / 8 = k := by omega
    have h2 : (8 * k + j) % 8 = j := by omega
    rw [hval (8 * k + j) (by omega)]
    simp only [h1, h2]

/-- Witness of `BitAtIndex_shift_and_byte_recovery` on the one-byte buffer `[0xB5]`. -/
theorem BitAtIndex_shift_and_byte_recovery_witness :
    (Option.map Fin.val (BitAtIndex [181] 2) = some (((181 : Nat) >>> 2) &&& 1)
      ∧ (bitValue [181] 2 = 0 ∨ bitValue [181] 2 = 1))
    ∧ ∑ j in Finset.range 8, bitValue [181] (8 * 0 + j) * 2 ^ j = 181 :=
  BitAtIndex_shift_and_byte_recovery [181] 2 0 (by decide) (by decide)

/-- Claim C7. For every root, key hash and non-membership proof whose witness
is an Internal node and whose sibling list has length `L < 256`,
`VerifyNonMembership` returns `UnexpectedChild` if and only if either the bit of
the key hash at index `L` is 0 and the left child of the witness is present, or
that bit is 1 and the right child is present. The root does not enter the
condition: the error is returned before any comparison with the root. -/
theorem VerifyNonMembership_unexpectedChild_iff (H : List Byte → Hash)
    (nonMemberProof : NonMembershipProof) (internal : InternalNode) (rootHash keyHash : Hash)
    (hI : nonMemberProof.Node.Internal = some internal)
    (hL : nonMemberProof.SiblingHashes.length < 256) :
    nonMemberProof.VerifyNonMembership H rootHash keyHash = Outcome.err Err.ErrUnexpectedChild
      ↔ (BitAtIndex keyHash.slice nonMemberProof.SiblingHashes.length = some 0
            ∧ internal.LeftHash ≠ none)
        ∨ (BitAtIndex keyHash.slice nonMemberProof.SiblingHashes.length = some 1
            ∧ internal.RightHash ≠ none) := by
  have hb : nonMemberProof.SiblingHashes.length ≤ 8 * keyHash.slice.length := by
    rw [Hash.slice_length]; omega
  have hcmp : ∀ current : Hash,
      computeAndCompareRootHash H rootHash keyHash.slice nonMemberProof.SiblingHashes current
        ≠ Outcome.err Err.ErrUnexpectedChild := by
    intro current
    rw [computeAndCompareRootHash_eq H rootHash keyHash.slice _ current hb]
    split <;> simp
  have h01 : ¬ (some (0 : Byte) = some 1) := by decide
  have h10 : ¬ (some (1 : Byte) = some 0) := by decide
  have hne : ¬ ((1 : Byte) = 0) := by decide
  rcases BitAtIndex_zero_or_one keyHash.slice nonMemberProof.SiblingHashes.length
      (by rw [Hash.slice_length]; omega) with h | h
  · cases hl : internal.LeftHash with
    | none =>
      simp [NonMembershipProof.VerifyNonMembership, NonMembershipProof.witnessHash, hI, h, hl,
        hcmp]
    | some x =>
      simp [NonMembershipProof.VerifyNonMembership, NonMembershipProof.witnessHash, hI, h, hl]
  · cases hr : internal.RightHash with
    | none =>
      simp [NonMembershipProof.VerifyNonMembership, NonMembershipProof.witnessHash, hI, h, hr,
        hcmp]
    | some x =>
      simp [NonMembershipProof.VerifyNonMembership, NonMembershipProof.witnessHash, hI, h, hr]

/-- Witness of `VerifyNonMembership_unexpectedChild_iff`: an internal witness with
a left child, one sibling, and a key hash whose bit at index 1 is 0. -/
theorem VerifyNonMembership_unexpectedChild_iff_witness :
    NonMembershipProof.VerifyNonMembership sampleH
        { Node := { Internal := some { LeftHash := some (constHash 3), RightHash := none },
                    Leaf := none },
          SiblingHashes := [none] } (constHash 1) (firstByteHash 1)
        = Outcome.err Err.ErrUnexpectedChild
      ↔ (BitAtIndex (firstByteHash 1).slice [(none : Option Hash)].length = some 0
            ∧ (some (constHash 3)) ≠ none)
        ∨ (BitAtIndex (firstByteHash 1).slice [(none : Option Hash)].length = some 1
            ∧ (none : Option Hash) ≠ none) :=
  VerifyNonMembership_unexpectedChild_iff sampleH
    { Node := { Internal := some { LeftHash := some (constHash 3), RightHash := none },
                Leaf := none },
      SiblingHashes := [none] }
    { LeftHash := some (constHash 3), RightHash := none } (constHash 1) (firstByteHash 1)
    rfl (by decide)

/-- Claim C8. For every root, key hash and non-membership proof whose witness
is a Leaf node and whose sibling list has length `L ≤ 256`, `VerifyNonMembership`
returns `NotCommonPrefix` if and only if there is an index `i < L` at which the
bit of the witness key hash differs from the bit of the target key hash. The root
does not enter the condition: the error is returned before any comparison with
the root. -/
theorem VerifyNonMembership_notCommonPrefix_iff (H : List Byte → Hash)
    (nonMemberProof : NonMembershipProof) (leaf : LeafNode) (rootHash keyHash : Hash)
    (hI : nonMemberProof.Node.Internal = none)
    (hLeaf : nonMemberProof.Node.Leaf = some leaf)
    (hL : nonMemberProof.SiblingHashes.length ≤ 256) :
    nonMemberProof.VerifyNonMembership H rootHash keyHash = Outcome.err Err.ErrNotCommonPrefix
      ↔ ∃ i, i < nonMemberProof.SiblingHashes.length
          ∧ BitAtIndex leaf.KeyHash.slice i ≠ BitAtIndex keyHash.slice i := by
  have hb : nonMemberProof.SiblingHashes.length ≤ 8 * keyHash.slice.length := by
    rw [Hash.slice_length]; omega
  have hcmp : ∀ current : Hash,
      computeAndCompareRootHash H rootHash keyHash.slice nonMemberProof.SiblingHashes current
        ≠ Outcome.err Err.ErrNotCommonPrefix := by
    intro current
    rw [computeAndCompareRootHash_eq H rootHash keyHash.slice _ current hb]
    split <;> simp
  rcases commonPrefixLoop_spec leaf.KeyHash.slice keyHash.slice
      nonMemberProof.SiblingHashes.length 0
      (by rw [Hash.slice_length]; omega) (by rw [Hash.slice_length]; omega)
    with ⟨hloop, j, _, hj2, hj3⟩ | ⟨hloop, hno⟩
  · simp only [NonMembershipProof.VerifyNonMembership, NonMembershipProof.witnessHash, hI,
      hLeaf, hloop, true_iff]
    exact ⟨j, by omega, hj3⟩
  · simp only [NonMembershipProof.VerifyNonMembership, NonMembershipProof.witnessHash, hI,
      hLeaf, hloop]
    constructor
    · intro h
      exact absurd h (hcmp _)
    · rintro ⟨i, hi1, hi2⟩
      exact absurd ⟨i, Nat.zero_le _, by omega, hi2⟩ hno

/-- Witness of `VerifyNonMembership_notCommonPrefix_iff`: a leaf witness whose
key hash differs from the target key hash at bit 0, with one sibling. -/
theorem VerifyNonMembership_notCommonPrefix_iff_witness :
    NonMembershipProof.VerifyNonMembership sampleH
        { Node := { Internal := none,
                    Leaf := some { KeyHash := firstByteHash 1, ValueHash := constHash 4 } },
          SiblingHashes := [none] } (constHash 1) (firstByteHash 2)
        = Outcome.err Err.ErrNotCommonPrefix
      ↔ ∃ i, i < [(none : Option Hash)].length
          ∧ BitAtIndex (firstByteHash 1).slice i ≠ BitAtIndex (firstByteHash 2).slice i :=
  VerifyNonMembership_notCommonPrefix_iff sampleH
    { Node := { Internal := none,
                Leaf := some { KeyHash := firstByteHash 1, ValueHash := constHash 4 } },
      SiblingHashes := [none] }
    { KeyHash := firstByteHash 1, ValueHash := constHash 4 } (constHash 1) (firstByteHash 2)
    rfl rfl (by decide)

/-- Claim C9, refuted as stated: a non-membership proof with a well-formed
Internal witness and a sibling list of length 256 makes `VerifyNonMembership`
call `BitAtIndex` on the 32-byte key hash at index 256, which is out of range,
and the call panics. -/
theorem VerifyNonMembership_internal_256_panics :
    Node.Validate { Internal := some { LeftHash := none, RightHash := none }, Leaf := none }
        = Outcome.nil
      ∧ (List.replicate 256 (none : Option Hash)).length ≤ 256
      ∧ BitAtIndex (constHash 0).slice (List.replicate 256 (none : Option Hash)).length = none
      ∧ NonMembershipProof.VerifyNonMembership sampleH
          { Node := { Internal := some { LeftHash := none, RightHash := none }, Leaf := none },
            SiblingHashes := List.replicate 256 none } (constHash 0) (constHash 0)
          = Outcome.panic := by
  decide

/-- Claim C9, amended. On a 32-byte hash `BitAtIndex` is out of range exactly at
the indices `i ≥ 256`. For every membership proof whose sibling list has length at
most 256, and every non-membership proof with a well-formed witness whose sibling
list has length at most 256, and less than 256 when the witness is an Internal
node, `VerifyMembership` and `VerifyNonMembership` do not panic: every
`BitAtIndex` call they make uses an index below 256 and no out-of-range byte
access occurs. -/
theorem Verify_bit_reads_in_range (H : List Byte → Hash) (memberProof : MembershipProof)
    (nonMemberProof : NonMembershipProof) (rootHash keyHash valueHash : Hash)
    (hm : memberProof.SiblingHashes.length ≤ 256)
    (hn : nonMemberProof.SiblingHashes.length ≤ 256)
    (hwf : nonMemberProof.Node.Validate = Outcome.nil)
    (hint : nonMemberProof.Node.Internal ≠ none → nonMemberProof.SiblingHashes.length < 256) :
    (∀ (h : Hash) (i : Nat), BitAtIndex h.slice i = none ↔ 256 ≤ i)
      ∧ memberProof.VerifyMembership H rootHash keyHash valueHash ≠ Outcome.panic
      ∧ nonMemberProof.VerifyNonMembership H rootHash keyHash ≠ Outcome.panic := by
  have hcmp : ∀ (siblings : List (Option Hash)) (current : Hash), siblings.length ≤ 256 →
      computeAndCompareRootHash H rootHash keyHash.slice siblings current ≠ Outcome.panic := by
    intro siblings current hs
    rw [computeAndCompareRootHash_eq H rootHash keyHash.slice siblings current
      (by rw [Hash.slice_length]; omega)]
    split <;> simp
  refine ⟨?_, ?_, ?_⟩
  · intro h i
    rw [BitAtIndex_eq_none_iff, Hash.slice_length]
  · exact hcmp _ _ hm
  · cases hI : nonMemberProof.Node.Internal with
    | some internal =>
      have hlt : nonMemberProof.SiblingHashes.length < 256 := hint (by rw [hI]; simp)
      rcases BitAtIndex_zero_or_one keyHash.slice nonMemberProof.SiblingHashes.length
          (by rw [Hash.slice_length]; omega) with h | h
      · cases hl : internal.LeftHash <;>
          simp [NonMembershipProof.VerifyNonMembership, NonMembershipProof.witnessHash, hI, h,
            hl, hcmp _ _ hn]
      · cases hr : internal.RightHash <;>
          simp [NonMembershipProof.VerifyNonMembership, NonMembershipProof.witnessHash, hI, h,
            hr, hcmp _ _ hn]
    | none =>
      cases hLeaf : nonMemberProof.Node.Leaf with
      | none => simp [Node.Validate, hI, hLeaf] at hwf
      | some leaf =>
        rcases commonPrefixLoop_spec leaf.KeyHash.slice keyHash.slice
            nonMemberProof.SiblingHashes.length 0
            (by rw [Hash.slice_length]; omega) (by rw [Hash.slice_length]; omega)
          with ⟨hloop, _⟩ | ⟨hloop, _⟩
        · simp [NonMembershipProof.VerifyNonMembership, NonMembershipProof.witnessHash, hI,
            hLeaf, hloop]
        · simp [NonMembershipProof.VerifyNonMembership, NonMembershipProof.witnessHash, hI,
            hLeaf, hloop, hcmp _ _ hn]

/-- Witness of `Verify_bit_reads_in_range`: a two-sibling membership proof and a
one-sibling non-membership proof with an Internal witness. -/
theorem Verify_bit_reads_in_range_witness :
    (∀ (h : Hash) (i : Nat), BitAtIndex h.slice i = none ↔ 256 ≤ i)
      ∧ MembershipProof.VerifyMembership sampleH { SiblingHashes := [some (constHash 7), none] }
          (constHash 1) (firstByteHash 2) (constHash 4) ≠ Outcome.panic
      ∧ NonMembershipProof.VerifyNonMembership sampleH
          { Node := { Internal := some { LeftHash := none, RightHash := some (constHash 3) },
                      Leaf := none },
            SiblingHashes := [none] } (constHash 1) (firstByteHash 1) ≠ Outcome.panic :=
  Verify_bit_reads_in_range sampleH { SiblingHashes := [some (constHash 7), none] }
    { Node := { Internal := some { LeftHash := none, RightHash := some (constHash 3) },
                Leaf := none },
      SiblingHashes := [none] }
    (constHash 1) (firstByteHash 1) (constHash 4)
    (by decide) (by decide) (by decide) (fun _ => by decide)

/-- Claim C10, refuted as stated: with the sibling list `[S0, S1]` and a key hash
whose bit 0 is 0 and bit 1 is 1, the root
`hash_internal(left = S0, right = hash_internal(left = current, right = S1))` is
rejected with `RootHashMismatch`, and the root the loop computes is a different
hash. -/
theorem computeAndCompareRootHash_rejects_claimed_root :
    BitAtIndex (firstByteHash 2).slice 0 = some 0
      ∧ BitAtIndex (firstByteHash 2).slice 1 = some 1
      ∧ computeAndCompareRootHash sampleH
          (claimedTwoLevelRoot sampleH (constHash 9) (some (constHash 7)) (some (constHash 5)))
          (firstByteHash 2).slice [some (constHash 7), some (constHash 5)] (constHash 9)
          = Outcome.err Err.ErrRootHashMismatch
      ∧ ¬ (computeAndCompareRootHash sampleH
            (twoLevelRoot sampleH (constHash 9) (some (constHash 7)) (some (constHash 5)))
            (firstByteHash 2).slice [some (constHash 7), some (constHash 5)] (constHash 9)
            = Outcome.nil
          ↔ twoLevelRoot sampleH (constHash 9) (some (constHash 7)) (some (constHash 5))
            = claimedTwoLevelRoot sampleH (constHash 9) (some (constHash 7))
                (some (constHash 5))) := by
  decide

/-- Claim C10, amended. For a sibling list `[S0, S1]` and every key hash whose
bit at index 0 is 0 and bit at index 1 is 1, the recomputation starting from
`current` first computes `c1 = hash_internal(left = S1, right = current)` and then
the candidate root `hash_internal(left = c1, right = S0)`; verification succeeds
exactly when the root equals that value, and returns `RootHashMismatch`
otherwise. -/
theorem computeAndCompareRootHash_two_levels (H : List Byte → Hash)
    (rootHash keyHash current : Hash) (S0 S1 : Option Hash)
    (h0 : BitAtIndex keyHash.slice 0 = some 0) (h1 : BitAtIndex keyHash.slice 1 = some 1) :
    computeRootLoop H keyHash.slice [S0, S1] 2 current
        = some (InternalNode.Hash H
            { LeftHash := some (InternalNode.Hash H { LeftHash := S1, RightHash := some current }),
              RightHash := S0 })
      ∧ (computeAndCompareRootHash H rootHash keyHash.slice [S0, S1] current = Outcome.nil
          ↔ rootHash = twoLevelRoot H current S0 S1)
      ∧ (rootHash ≠ twoLevelRoot H current S0 S1
          → computeAndCompareRootHash H rootHash keyHash.slice [S0, S1] current
              = Outcome.err Err.ErrRootHashMismatch) := by
  have hne : ¬ ((1 : Byte) = 0) := by decide
  have hloop : computeRootLoop H keyHash.slice [S0, S1] 2 current
      = some (twoLevelRoot H current S0 S1) := by
    simp [computeRootLoop, h0, h1, hne, twoLevelRoot]
  refine ⟨hloop, ?_, ?_⟩
  · simp only [computeAndCompareRootHash, List.length_cons, List.length_nil, hloop]
    by_cases h : twoLevelRoot H current S0 S1 = rootHash
    · simp [h]
    · have h2 : ¬ rootHash = twoLevelRoot H current S0 S1 := fun e => h e.symm
      simp [h, h2]
  · intro hroot
    have h : ¬ twoLevelRoot H current S0 S1 = rootHash := fun e => hroot e.symm
    simp only [computeAndCompareRootHash, List.length_cons, List.length_nil, hloop]
    simp [h]

/-- Witness of `computeAndCompareRootHash_two_levels` under the digest function
`sampleH`, with the key hash whose first byte is `0b00000010`. -/
theorem computeAndCompareRootHash_two_levels_witness :
    computeRootLoop sampleH (firstByteHash 2).slice [some (constHash 7), some (constHash 5)] 2
          (constHash 9)
        = some (InternalNode.Hash sampleH
            { LeftHash := some (InternalNode.Hash sampleH
                { LeftHash := some (constHash 5), RightHash := some (constHash 9) }),
              RightHash := some (constHash 7) })
      ∧ (computeAndCompareRootHash sampleH (constHash 1) (firstByteHash 2).slice
            [some (constHash 7), some (constHash 5)] (constHash 9) = Outcome.nil
          ↔ constHash 1
            = twoLevelRoot sampleH (constHash 9) (some (constHash 7)) (some (constHash 5)))
      ∧ (constHash 1
            ≠ twoLevelRoot sampleH (constHash 9) (some (constHash 7)) (some (constHash 5))
          → computeAndCompareRootHash sampleH (constHash 1) (firstByteHash 2).slice
              [some (constHash 7), some (constHash 5)] (constHash 9)
              = Outcome.err Err.ErrRootHashMismatch) :=
  computeAndCompareRootHash_two_levels sampleH (constHash 1) (firstByteHash 2) (constHash 9)
    (some (constHash 7)) (some (constHash 5)) (by decide) (by decide)

/-! ## Node hashing -/

theorem orZero_length (h : Option Hash) : (orZero h).slice.length = 32 := (orZero h).size

theorem internalPreimage_eq (internalNode : InternalNode) :
    internalNode.preimage
      = 0 :: ((orZero internalNode.LeftHash).slice ++ (orZero internalNode.RightHash).slice) := by
  cases internalNode with
  | mk l r => cases l <;> cases r <;> rfl

theorem leafPreimage_eq (leafNode : LeafNode) :
    leafNode.preimage = 1 :: (leafNode.KeyHash.slice ++ leafNode.ValueHash.slice) := rfl

theorem internalHash_congr (H : List Byte → Hash) (a b : InternalNode)
    (hl : orZero a.LeftHash = orZero b.LeftHash) (hr : orZero a.RightHash = orZero b.RightHash) :
    InternalNode.Hash H a = InternalNode.Hash H b := by
  unfold InternalNode.Hash
  rw [internalPreimage_eq, internalPreimage_eq, hl, hr]

theorem AbsentOrZero.orZero_eq {a b : Option Hash} (h : AbsentOrZero a b) :
    orZero a = orZero b := by
  rcases h with h | ⟨ha, hb⟩ | ⟨ha, hb⟩
  · rw [h]
  · rw [ha, hb]; rfl
  · rw [ha, hb]; rfl

theorem computeAndCompareRootHash_cases (H : List Byte → Hash) (rootHash : Hash)
    (bits : BitArray) (siblings : List (Option Hash)) (current : Hash) :
    computeAndCompareRootHash H rootHash bits siblings current = Outcome.panic
      ∨ computeAndCompareRootHash H rootHash bits siblings current = Outcome.nil
      ∨ computeAndCompareRootHash H rootHash bits siblings current
          = Outcome.err Err.ErrRootHashMismatch := by
  unfold computeAndCompareRootHash
  cases computeRootLoop H bits siblings siblings.length current with
  | none => left; rfl
  | some c =>
    by_cases h : c = rootHash
    · right; left; simp [h]
    · right; right; simp [h]

theorem computeRootLoop_congr_siblings (H : List Byte → Hash) (bits : BitArray)
    (siblings siblings' : List (Option Hash)) (hrel : List.Forall₂ AbsentOrZero siblings siblings') :
    ∀ (n : Nat), n ≤ siblings.length → ∀ current : Hash,
      computeRootLoop H bits siblings n current = computeRootLoop H bits siblings' n current := by
  have hlen : siblings.length = siblings'.length := hrel.length_eq
  intro n
  induction n with
  | zero => intro _ current; rfl
  | succ n ih =>
    intro hn current
    have h1 : n < siblings.length := by omega
    have h2 : n < siblings'.length := by omega
    have hs : siblings.get? n = some (siblings.get ⟨n, h1⟩) := List.get?_eq_get h1
    have hs' : siblings'.get? n = some (siblings'.get ⟨n, h2⟩) := List.get?_eq_get h2
    have hz : orZero (siblings.get ⟨n, h1⟩) = orZero (siblings'.get ⟨n, h2⟩) :=
      (hrel.get h1 h2).orZero_eq
    cases hb : BitAtIndex bits n with
    | none => simp only [computeRootLoop, hb]
    | some bit =>
      simp only [computeRootLoop, hb, hs, hs']
      rw [internalHash_congr H
          { LeftHash := some current, RightHash := siblings.get ⟨n, h1⟩ }
          { LeftHash := some current, RightHash := siblings'.get ⟨n, h2⟩ } rfl hz,
        internalHash_congr H
          { LeftHash := siblings.get ⟨n, h1⟩, RightHash := some current }
          { LeftHash := siblings'.get ⟨n, h2⟩, RightHash := some current } hz rfl,
        ih (by omega), ih (by omega)]

theorem computeAndCompareRootHash_congr_siblings (H : List Byte → Hash) (rootHash : Hash)
    (bits : BitArray) (siblings siblings' : List (Option Hash))
    (hrel : List.Forall₂ AbsentOrZero siblings siblings') (current : Hash) :
    computeAndCompareRootHash H rootHash bits siblings current
      = computeAndCompareRootHash H rootHash bits siblings' current := by
  unfold computeAndCompareRootHash
  rw [computeRootLoop_congr_siblings H bits siblings siblings' hrel siblings.length (le_refl _),
    hrel.length_eq]

theorem witnessHash_error_cases (H : List Byte → Hash) (nonMemberProof : NonMembershipProof)
    (bits : BitArray) (outcome : Outcome)
    (h : nonMemberProof.witnessHash H bits = Except.error outcome) :
    outcome = Outcome.panic ∨ outcome = Outcome.err Err.ErrUnexpectedChild
      ∨ outcome = Outcome.err Err.ErrNotCommonPrefix := by
  unfold NonMembershipProof.witnessHash at h
  dsimp only at h
  repeat' split at h
  all_goals (cases h <;> simp)

theorem VerifyNonMembership_ne_incorrectProofType (H : List Byte → Hash)
    (nonMemberProof : NonMembershipProof) (rootHash keyHash : Hash) :
    nonMemberProof.VerifyNonMembership H rootHash keyHash
      ≠ Outcome.err Err.ErrIncorrectProofType := by
  cases hw : nonMemberProof.witnessHash H keyHash.slice with
  | error outcome =>
    simp only [NonMembershipProof.VerifyNonMembership, hw]
    rcases witnessHash_error_cases H nonMemberProof keyHash.slice outcome hw with h | h | h <;>
      simp [h]
  | ok current =>
    simp only [NonMembershipProof.VerifyNonMembership, hw]
    rcases computeAndCompareRootHash_cases H rootHash keyHash.slice
        nonMemberProof.SiblingHashes current with h | h | h <;> simp [h]

theorem VerifyNonMembership_of_no_early_error (H : List Byte → Hash)
    (nonMemberProof : NonMembershipProof) (rootHash keyHash start : Hash)
    (hstart : witnessStart H nonMemberProof.Node = some start)
    (hL : nonMemberProof.SiblingHashes.length ≤ 256)
    (hI : nonMemberProof.Node.Internal ≠ none → nonMemberProof.SiblingHashes.length < 256)
    (hU : nonMemberProof.VerifyNonMembership H rootHash keyHash
            ≠ Outcome.err Err.ErrUnexpectedChild)
    (hN : nonMemberProof.VerifyNonMembership H rootHash keyHash
            ≠ Outcome.err Err.ErrNotCommonPrefix) :
    nonMemberProof.VerifyNonMembership H rootHash keyHash
      = computeAndCompareRootHash H rootHash keyHash.slice nonMemberProof.SiblingHashes
          start := by
  cases hInt : nonMemberProof.Node.Internal with
  | some internal =>
    have hlt : nonMemberProof.SiblingHashes.length < 256 := hI (by rw [hInt]; simp)
    have hs : start = InternalNode.Hash H internal := by
      simp only [witnessStart, hInt, Option.some.injEq] at hstart
      exact hstart.symm
    rcases BitAtIndex_zero_or_one keyHash.slice nonMemberProof.SiblingHashes.length
        (by rw [Hash.slice_length]; omega) with h | h
    · cases hl : internal.LeftHash with
      | none =>
        simp [NonMembershipProof.VerifyNonMembership, NonMembershipProof.witnessHash, hInt, h,
          hl, hs]
      | some x =>
        exact absurd (by
          simp [NonMembershipProof.VerifyNonMembership, NonMembershipProof.witnessHash, hInt,
            h, hl]) hU
    · cases hr : internal.RightHash with
      | none =>
        simp [NonMembershipProof.VerifyNonMembership, NonMembershipProof.witnessHash, hInt, h,
          hr, hs]
      | some x =>
        exact absurd (by
          simp [NonMembershipProof.VerifyNonMembership, NonMembershipProof.witnessHash, hInt,
            h, hr]) hU
  | none =>
    cases hLeaf : nonMemberProof.Node.Leaf with
    | none => simp [witnessStart, hInt, hLeaf] at hstart
    | some leaf =>
      have hs : start = LeafNode.Hash H leaf := by
        simp only [witnessStart, hInt, hLeaf, Option.some.injEq] at hstart
        exact hstart.symm
      rcases commonPrefixLoop_spec leaf.KeyHash.slice keyHash.slice
          nonMemberProof.SiblingHashes.length 0
          (by rw [Hash.slice_length]; omega) (by rw [Hash.slice_length]; omega)
        with ⟨hloop, _⟩ | ⟨hloop, _⟩
      · exact absurd (by
          simp [NonMembershipProof.VerifyNonMembership, NonMembershipProof.witnessHash, hInt,
            hLeaf, hloop]) hN
      · simp [NonMembershipProof.VerifyNonMembership, NonMembershipProof.witnessHash, hInt,
          hLeaf, hloop, hs]

/-! ## Collision-freeness and uniqueness -/

theorem CollisionFreeOn.mono {H : List Byte → Hash} {S T : List (List Byte)}
    (h : CollisionFreeOn H T) (hsub : ∀ p ∈ S, p ∈ T) : CollisionFreeOn H S :=
  fun p hp q hq e => h p (hsub p hp) q (hsub q hq) e

theorem hash_eq_of_bytes_eq {a b : Hash} (h : a.bytes = b.bytes) : a = b := by
  cases a; cases b; cases h; rfl

theorem slices_append_inj {a b c d : Hash} (h : a.slice ++ b.slice = c.slice ++ d.slice) :
    a = c ∧ b = d := by
  have hlen : a.slice.length = c.slice.length := by rw [Hash.slice_length, Hash.slice_length]
  have := List.append_inj h hlen
  exact ⟨hash_eq_of_bytes_eq this.1, hash_eq_of_bytes_eq this.2⟩

theorem internalPreimage_inj {a b : InternalNode} (h : a.preimage = b.preimage) :
    orZero a.LeftHash = orZero b.LeftHash ∧ orZero a.RightHash = orZero b.RightHash := by
  rw [internalPreimage_eq, internalPreimage_eq] at h
  exact slices_append_inj (List.cons.inj h).2

theorem leafPreimage_inj {a b : LeafNode} (h : a.preimage = b.preimage) :
    a.KeyHash = b.KeyHash ∧ a.ValueHash = b.ValueHash := by
  rw [leafPreimage_eq, leafPreimage_eq] at h
  exact slices_append_inj (List.cons.inj h).2

theorem computeRootLoop_succ (H : List Byte → Hash) (bits : BitArray)
    (siblings : List (Option Hash)) (n : Nat) (hn : n < siblings.length)
    (hb : n < 8 * bits.length) (current : Hash) :
    computeRootLoop H bits siblings (n + 1) current
      = computeRootLoop H bits siblings n
          (InternalNode.Hash H (loopNode bits siblings current n)) := by
  have hs : siblings.get? n = some (siblings.get ⟨n, hn⟩) := List.get?_eq_get hn
  rcases BitAtIndex_zero_or_one bits n hb with h | h
  · have hnode : loopNode bits siblings current n
        = { LeftHash := some current, RightHash := siblings.get ⟨n, hn⟩ } := by
      rw [loopNode, if_pos h, hs]; rfl
    simp only [computeRootLoop, h, hs, if_true, hnode]
  · have hne : ¬ ((1 : Byte) = 0) := by decide
    have hne2 : ¬ (some (1 : Byte) = some 0) := by decide
    have hnode : loopNode bits siblings current n
        = { LeftHash := siblings.get ⟨n, hn⟩, RightHash := some current } := by
      rw [loopNode, h, if_neg hne2, hs]; rfl
    simp only [computeRootLoop, h, hs, if_neg hne, hnode]

theorem loopNode_cases (bits : BitArray) (siblings : List (Option Hash)) (current : Hash)
    (n : Nat) :
    loopNode bits siblings current n
        = { LeftHash := some current, RightHash := (siblings.get? n).join }
      ∨ loopNode bits siblings current n
        = { LeftHash := (siblings.get? n).join, RightHash := some current } := by
  unfold loopNode
  split
  · left; rfl
  · right; rfl

theorem computeRootLoop_start_unique (H : List Byte → Hash) (bits bits' : BitArray)
    (siblings : List (Option Hash)) :
    ∀ (n : Nat), n ≤ siblings.length → n ≤ 8 * bits.length → n ≤ 8 * bits'.length →
      ∀ current current' : Hash,
        CollisionFreeOn H (loopPreimages H bits siblings n current
          ++ loopPreimages H bits' siblings n current') →
        computeRootLoop H bits siblings n current
          = computeRootLoop H bits' siblings n current' →
        current = current' := by
  intro n
  induction n with
  | zero =>
    intro _ _ _ current current' _ h
    exact Option.some.inj h
  | succ n ih =>
    intro hn hb hb' current current' hH h
    rw [computeRootLoop_succ H bits siblings n (by omega) (by omega),
      computeRootLoop_succ H bits' siblings n (by omega) (by omega)] at h
    have hsub : CollisionFreeOn H
        (loopPreimages H bits siblings n (InternalNode.Hash H (loopNode bits siblings current n))
          ++ loopPreimages H bits' siblings n
              (InternalNode.Hash H (loopNode bits' siblings current' n))) := by
      apply hH.mono
      intro p hp
      simp only [loopPreimages, List.mem_append, List.mem_cons] at hp ⊢
      rcases hp with hp | hp
      · exact Or.inl (Or.inr hp)
      · exact Or.inr (Or.inr hp)
    have hhash := ih (by omega) (by omega) (by omega) _ _ hsub h
    have hpre : (loopNode bits siblings current n).preimage
        = (loopNode bits' siblings current' n).preimage := by
      apply hH _ _ _ _ hhash
      · simp [loopPreimages]
      · simp [loopPreimages]
    have hz := internalPreimage_inj hpre
    rcases loopNode_cases bits siblings current n with h1 | h1 <;>
      rcases loopNode_cases bits' siblings current' n with h2 | h2 <;>
      rw [h1, h2] at hz
    · exact hz.1
    · exact hz.1.trans hz.2
    · exact hz.2.trans hz.1
    · exact hz.2

theorem computeRootLoop_siblings_unique (H : List Byte → Hash) (bits : BitArray)
    (siblings siblings' : List (Option Hash)) :
    ∀ (n : Nat), n ≤ siblings.length → n ≤ siblings'.length → n ≤ 8 * bits.length →
      ∀ current current' : Hash,
        CollisionFreeOn H (loopPreimages H bits siblings n current
          ++ loopPreimages H bits siblings' n current') →
        computeRootLoop H bits siblings n current
          = computeRootLoop H bits siblings' n current' →
        current = current'
          ∧ ∀ d, d < n → orZero (siblings.get? d).join = orZero (siblings'.get? d).join := by
  intro n
  induction n with
  | zero =>
    intro _ _ _ current current' _ h
    exact ⟨Option.some.inj h, fun d hd => absurd hd (Nat.not_lt_zero d)⟩
  | succ n ih =>
    intro hn hn' hb current current' hH h
    rw [computeRootLoop_succ H bits siblings n (by omega) (by omega),
      computeRootLoop_succ H bits siblings' n (by omega) (by omega)] at h
    have hsub : CollisionFreeOn H
        (loopPreimages H bits siblings n (InternalNode.Hash H (loopNode bits siblings current n))
          ++ loopPreimages H bits siblings' n
              (InternalNode.Hash H (loopNode bits siblings' current' n))) := by
      apply hH.mono
      intro p hp
      simp only [loopPreimages, List.mem_append, List.mem_cons] at hp ⊢
      rcases hp with hp | hp
      · exact Or.inl (Or.inr hp)
      · exact Or.inr (Or.inr hp)
    obtain ⟨hhash, hrest⟩ := ih (by omega) (by omega) (by omega) _ _ hsub h
    have hpre : (loopNode bits siblings current n).preimage
        = (loopNode bits siblings' current' n).preimage := by
      apply hH _ _ _ _ hhash
      · simp [loopPreimages]
      · simp [loopPreimages]
    have hz := internalPreimage_inj hpre
    have hboth : current = current'
        ∧ orZero (siblings.get? n).join = orZero (siblings'.get? n).join := by
      unfold loopNode at hz
      by_cases hbit : BitAtIndex bits n = some 0
      · rw [if_pos hbit, if_pos hbit] at hz
        exact ⟨hz.1, hz.2⟩
      · rw [if_neg hbit, if_neg hbit] at hz
        exact ⟨hz.2, hz.1⟩
    refine ⟨hboth.1, ?_⟩
    intro d hd
    by_cases hdn : d = n
    · rw [hdn]; exact hboth.2
    · exact hrest d (by omega)

theorem CollisionFreeOn_of_injective (H : List Byte → Hash)
    (hinj : ∀ p q : List Byte, p.length = 65 → q.length = 65 → H p = H q → p = q)
    (S : List (List Byte)) (hS : ∀ p ∈ S, p.length = 65) : CollisionFreeOn H S :=
  fun p hp q hq e => hinj p q (hS p hp) (hS q hq) e

theorem internalPreimage_length (internalNode : InternalNode) :
    internalNode.preimage.length = 65 := by
  rw [internalPreimage_eq]
  simp only [List.length_cons, List.length_append, orZero_length]

theorem leafPreimage_length (leafNode : LeafNode) : leafNode.preimage.length = 65 := by
  rw [leafPreimage_eq]
  simp only [List.length_cons, List.length_append, Hash.slice_length]

theorem loopPreimages_length (H : List Byte → Hash) (bits : BitArray)
    (siblings : List (Option Hash)) :
    ∀ (n : Nat) (current : Hash), ∀ p ∈ loopPreimages H bits siblings n current,
      p.length = 65 := by
  intro n
  induction n with
  | zero => intro current p hp; simp [loopPreimages] at hp
  | succ n ih =>
    intro current p hp
    simp only [loopPreimages, List.mem_cons] at hp
    rcases hp with hp | hp
    · rw [hp]; exact internalPreimage_length _
    · exact ih _ p hp

theorem membershipPreimages_length (H : List Byte → Hash) (memberProof : MembershipProof)
    (keyHash valueHash : Hash) :
    ∀ p ∈ membershipPreimages H memberProof keyHash valueHash, p.length = 65 := by
  intro p hp
  simp only [membershipPreimages, List.mem_cons] at hp
  rcases hp with hp | hp
  · rw [hp]; exact leafPreimage_length _
  · exact loopPreimages_length H _ _ _ _ p hp

/-! ## JSON encoding of a hash -/

theorem goCopy_of_length_eq (dst src : List Byte) (h : src.length = dst.length) :
    goCopy dst src = src := by
  unfold goCopy
  rw [List.take_of_length_le (by omega), List.drop_of_length_le (by omega), List.append_nil]

theorem UnmarshalJSON_of_decoded (codec : Codec) (h : Hash) (data : List Byte) (s : GoString)
    (decoded : List Byte) (hjson : codec.jsonUnmarshal data = some s)
    (hb64 : codec.base64DecodeString s = some decoded) :
    (decoded.length ≠ 32
        → Hash.UnmarshalJSON codec h data
            = (h, UnmarshalOutcome.err Err.ErrIncorrectHashLength))
      ∧ (decoded.length = 32
        → (Hash.UnmarshalJSON codec h data).2 = UnmarshalOutcome.nil
          ∧ (Hash.UnmarshalJSON codec h data).1.bytes = decoded) := by
  constructor
  · intro hlen
    simp only [Hash.UnmarshalJSON, hjson, hb64, if_pos hlen]
  · intro hlen
    have hn : ¬ decoded.length ≠ 32 := fun hne => hne hlen
    simp only [Hash.UnmarshalJSON, hjson, hb64, if_neg hn, true_and]
    exact goCopy_of_length_eq h.slice decoded (by rw [Hash.slice_length, hlen])

/-! ## Claims, continued -/

/-- Claim C11. Assume `H` has no collision among the byte strings hashed by the
two verifications, which holds in particular when `H` is injective on the 65-byte
node preimages. For every root and membership proof with sibling list of length
at most 256: if `VerifyMembership(root, keyHash, valueHash)` succeeds, then for
every pair `(keyHash', valueHash')` different from `(keyHash, valueHash)`,
`VerifyMembership(root, keyHash', valueHash')` on the same proof returns
`RootHashMismatch`; so at most one pair of key and value hashes verifies against a
given root and sibling list. -/
theorem VerifyMembership_unique_pair (H : List Byte → Hash) (memberProof : MembershipProof)
    (rootHash keyHash valueHash keyHash' valueHash' : Hash)
    (hL : memberProof.SiblingHashes.length ≤ 256)
    (hH : CollisionFreeOn H (membershipPreimages H memberProof keyHash valueHash
            ++ membershipPreimages H memberProof keyHash' valueHash'))
    (hok : memberProof.VerifyMembership H rootHash keyHash valueHash = Outcome.nil)
    (hne : (keyHash', valueHash') ≠ (keyHash, valueHash)) :
    memberProof.VerifyMembership H rootHash keyHash' valueHash'
      = Outcome.err Err.ErrRootHashMismatch := by
  have hb : memberProof.SiblingHashes.length ≤ 8 * keyHash.slice.length := by
    rw [Hash.slice_length]; omega
  have hb' : memberProof.SiblingHashes.length ≤ 8 * keyHash'.slice.length := by
    rw [Hash.slice_length]; omega
  have hloop := computeRootLoop_eq_foldl H keyHash.slice memberProof.SiblingHashes
    memberProof.SiblingHashes.length (le_refl _) hb
    (LeafNode.Hash H { KeyHash := keyHash, ValueHash := valueHash })
  have hloop' := computeRootLoop_eq_foldl H keyHash'.slice memberProof.SiblingHashes
    memberProof.SiblingHashes.length (le_refl _) hb'
    (LeafNode.Hash H { KeyHash := keyHash', ValueHash := valueHash' })
  simp only [MembershipProof.VerifyMembership] at hok ⊢
  rw [computeAndCompareRootHash_eq H rootHash keyHash.slice _ _ hb] at hok
  rw [computeAndCompareRootHash_eq H rootHash keyHash'.slice _ _ hb']
  by_cases hroot : foldedRoot H keyHash.slice memberProof.SiblingHashes
      (LeafNode.Hash H { KeyHash := keyHash, ValueHash := valueHash }) = rootHash
  · by_cases hroot' : foldedRoot H keyHash'.slice memberProof.SiblingHashes
        (LeafNode.Hash H { KeyHash := keyHash', ValueHash := valueHash' }) = rootHash
    · exfalso
      have hsame : computeRootLoop H keyHash.slice memberProof.SiblingHashes
            memberProof.SiblingHashes.length
            (LeafNode.Hash H { KeyHash := keyHash, ValueHash := valueHash })
          = computeRootLoop H keyHash'.slice memberProof.SiblingHashes
            memberProof.SiblingHashes.length
            (LeafNode.Hash H { KeyHash := keyHash', ValueHash := valueHash' }) := by
        rw [hloop, hloop']
        exact congrArg some (hroot.trans hroot'.symm)
      have hsub : CollisionFreeOn H
          (loopPreimages H keyHash.slice memberProof.SiblingHashes
              memberProof.SiblingHashes.length
              (LeafNode.Hash H { KeyHash := keyHash, ValueHash := valueHash })
            ++ loopPreimages H keyHash'.slice memberProof.SiblingHashes
              memberProof.SiblingHashes.length
              (LeafNode.Hash H { KeyHash := keyHash', ValueHash := valueHash' })) := by
        apply hH.mono
        intro p hp
        simp only [membershipPreimages, List.mem_append, List.mem_cons] at hp ⊢
        rcases hp with hp | hp
        · exact Or.inl (Or.inr hp)
        · exact Or.inr (Or.inr hp)
      have hleaf := computeRootLoop_start_unique H keyHash.slice keyHash'.slice
        memberProof.SiblingHashes memberProof.SiblingHashes.length (le_refl _) hb hb' _ _
        hsub hsame
      have hpre : LeafNode.preimage { KeyHash := keyHash, ValueHash := valueHash }
          = LeafNode.preimage { KeyHash := keyHash', ValueHash := valueHash' } := by
        apply hH _ _ _ _ hleaf
        · simp [membershipPreimages]
        · simp [membershipPreimages]
      have hkv := leafPreimage_inj hpre
      exact hne (Prod.ext hkv.1.symm hkv.2.symm)
    · rw [if_neg hroot']
  · rw [if_neg hroot] at hok
    cases hok

/-- Witness of `VerifyMembership_unique_pair` under the digest function
`sampleH`: a one-sibling proof that verifies for one key hash and is rejected for
another. -/
theorem VerifyMembership_unique_pair_witness :
    MembershipProof.VerifyMembership sampleH { SiblingHashes := [some (constHash 7)] }
        (InternalNode.Hash sampleH
          { LeftHash := some (LeafNode.Hash sampleH
              { KeyHash := firstByteHash 2, ValueHash := constHash 4 }),
            RightHash := some (constHash 7) })
        (firstByteHash 3) (constHash 4)
      = Outcome.err Err.ErrRootHashMismatch :=
  VerifyMembership_unique_pair sampleH { SiblingHashes := [some (constHash 7)] }
    (InternalNode.Hash sampleH
      { LeftHash := some (LeafNode.Hash sampleH
          { KeyHash := firstByteHash 2, ValueHash := constHash 4 }),
        RightHash := some (constHash 7) })
    (firstByteHash 2) (constHash 4) (firstByteHash 3) (constHash 4)
    (by decide) (by decide) (by decide) (by decide)

/-- Claim C12. For all digests `x`, `y`, `a`, `b` (`x` and `y` possibly absent), the
byte string hashed by `InternalNode.Hash` is `0x00 || x_or_zero || y_or_zero` and the
byte string hashed by `LeafNode.Hash` is `0x01 || a || b`; both are 65 bytes long
and differ in their first byte, so `hash_internal(x, y) ≠ hash_leaf(a, b)` whenever
`H` has no collision on these two byte strings. -/
theorem internalHash_ne_leafHash (H : List Byte → Hash) (x y : Option Hash)
    (a b : Hash)
    (hH : H (InternalNode.preimage { LeftHash := x, RightHash := y })
            = H (LeafNode.preimage { KeyHash := a, ValueHash := b })
          → InternalNode.preimage { LeftHash := x, RightHash := y }
            = LeafNode.preimage { KeyHash := a, ValueHash := b }) :
    InternalNode.preimage { LeftHash := x, RightHash := y }
        = 0 :: ((orZero x).slice ++ (orZero y).slice)
      ∧ LeafNode.preimage { KeyHash := a, ValueHash := b } = 1 :: (a.slice ++ b.slice)
      ∧ (InternalNode.preimage { LeftHash := x, RightHash := y }).length = 65
      ∧ (LeafNode.preimage { KeyHash := a, ValueHash := b }).length = 65
      ∧ (InternalNode.preimage { LeftHash := x, RightHash := y }).head?
          ≠ (LeafNode.preimage { KeyHash := a, ValueHash := b }).head?
      ∧ InternalNode.Hash H { LeftHash := x, RightHash := y }
          ≠ LeafNode.Hash H { KeyHash := a, ValueHash := b } := by
  have hi := internalPreimage_eq { LeftHash := x, RightHash := y }
  have hl := leafPreimage_eq { KeyHash := a, ValueHash := b }
  have hne : InternalNode.preimage { LeftHash := x, RightHash := y }
      ≠ LeafNode.preimage { KeyHash := a, ValueHash := b } := by
    rw [hi, hl]
    intro h
    have := (List.cons.inj h).1
    exact absurd this (by decide)
  refine ⟨hi, hl, ?_, ?_, ?_, ?_⟩
  · rw [hi]
    simp only [List.length_cons, List.length_append, orZero_length]
  · rw [hl]
    simp only [List.length_cons, List.length_append, Hash.slice_length]
  · rw [hi, hl]
    simp only [List.head?_cons, ne_eq, Option.some.injEq]
    decide
  · intro h
    exact hne (hH h)

/-- Witness of `internalHash_ne_leafHash` under the digest function
`sampleH`: an internal node with an absent left child against a leaf. -/
theorem internalHash_ne_leafHash_witness :
    InternalNode.preimage { LeftHash := none, RightHash := some (constHash 3) }
        = 0 :: ((orZero none).slice ++ (orZero (some (constHash 3))).slice)
      ∧ LeafNode.preimage { KeyHash := constHash 0, ValueHash := constHash 3 }
          = 1 :: ((constHash 0).slice ++ (constHash 3).slice)
      ∧ (InternalNode.preimage { LeftHash := none, RightHash := some (constHash 3) }).length = 65
      ∧ (LeafNode.preimage { KeyHash := constHash 0, ValueHash := constHash 3 }).length = 65
      ∧ (InternalNode.preimage { LeftHash := none, RightHash := some (constHash 3) }).head?
          ≠ (LeafNode.preimage { KeyHash := constHash 0, ValueHash := constHash 3 }).head?
      ∧ InternalNode.Hash sampleH { LeftHash := none, RightHash := some (constHash 3) }
          ≠ LeafNode.Hash sampleH { KeyHash := constHash 0, ValueHash := constHash 3 } :=
  internalHash_ne_leafHash sampleH none (some (constHash 3)) (constHash 0)
    (constHash 3) (by decide)

/-- Claim C13. An absent child or sibling hashes exactly like the all-zero
32-byte digest: for every optional digest `r`, `InternalNode{absent, r}.Hash()` is
`InternalNode{zero, r}.Hash()`, and the same on the right side; consequently,
replacing any absent entries of a sibling list by the zero digest, or zero
digests by absent entries, never changes the result of `VerifyMembership` or
`VerifyNonMembership`. -/
theorem absent_sibling_hashes_as_zero (H : List Byte → Hash) (r : Option Hash)
    (rootHash keyHash valueHash : Hash) (node : Node) (siblings siblings' : List (Option Hash))
    (hrel : List.Forall₂ AbsentOrZero siblings siblings') :
    InternalNode.Hash H { LeftHash := none, RightHash := r }
        = InternalNode.Hash H { LeftHash := some ZeroHash, RightHash := r }
      ∧ InternalNode.Hash H { LeftHash := r, RightHash := none }
          = InternalNode.Hash H { LeftHash := r, RightHash := some ZeroHash }
      ∧ MembershipProof.VerifyMembership H { SiblingHashes := siblings }
            rootHash keyHash valueHash
          = MembershipProof.VerifyMembership H { SiblingHashes := siblings' }
              rootHash keyHash valueHash
      ∧ NonMembershipProof.VerifyNonMembership H { Node := node, SiblingHashes := siblings }
            rootHash keyHash
          = NonMembershipProof.VerifyNonMembership H
              { Node := node, SiblingHashes := siblings' } rootHash keyHash := by
  refine ⟨?_, ?_, ?_, ?_⟩
  · exact internalHash_congr H _ _ rfl rfl
  · exact internalHash_congr H _ _ rfl rfl
  · simp only [MembershipProof.VerifyMembership]
    exact computeAndCompareRootHash_congr_siblings H rootHash keyHash.slice _ _ hrel _
  · have hw : NonMembershipProof.witnessHash H { Node := node, SiblingHashes := siblings }
          keyHash.slice
        = NonMembershipProof.witnessHash H { Node := node, SiblingHashes := siblings' }
          keyHash.slice := by
      simp only [NonMembershipProof.witnessHash, hrel.length_eq]
    simp only [NonMembershipProof.VerifyNonMembership, hw]
    cases NonMembershipProof.witnessHash H { Node := node, SiblingHashes := siblings' }
        keyHash.slice with
    | error outcome => rfl
    | ok current =>
      exact computeAndCompareRootHash_congr_siblings H rootHash keyHash.slice _ _ hrel _

/-- Witness of `absent_sibling_hashes_as_zero`: the sibling lists
`[absent, S]` and `[zero, S]`. -/
theorem absent_sibling_hashes_as_zero_witness :
    InternalNode.Hash sampleH { LeftHash := none, RightHash := some (constHash 3) }
        = InternalNode.Hash sampleH { LeftHash := some ZeroHash, RightHash := some (constHash 3) }
      ∧ InternalNode.Hash sampleH { LeftHash := some (constHash 3), RightHash := none }
          = InternalNode.Hash sampleH
              { LeftHash := some (constHash 3), RightHash := some ZeroHash }
      ∧ MembershipProof.VerifyMembership sampleH { SiblingHashes := [none, some (constHash 7)] }
            (constHash 1) (firstByteHash 2) (constHash 4)
          = MembershipProof.VerifyMembership sampleH
              { SiblingHashes := [some ZeroHash, some (constHash 7)] }
              (constHash 1) (firstByteHash 2) (constHash 4)
      ∧ NonMembershipProof.VerifyNonMembership sampleH
            { Node := { Internal := some { LeftHash := none, RightHash := none }, Leaf := none },
              SiblingHashes := [none, some (constHash 7)] } (constHash 1) (firstByteHash 2)
          = NonMembershipProof.VerifyNonMembership sampleH
              { Node := { Internal := some { LeftHash := none, RightHash := none },
                          Leaf := none },
                SiblingHashes := [some ZeroHash, some (constHash 7)] }
              (constHash 1) (firstByteHash 2) :=
  absent_sibling_hashes_as_zero sampleH (some (constHash 3)) (constHash 1) (firstByteHash 2)
    (constHash 4) { Internal := some { LeftHash := none, RightHash := none }, Leaf := none }
    [none, some (constHash 7)] [some ZeroHash, some (constHash 7)]
    (List.Forall₂.cons (Or.inr (Or.inl ⟨rfl, rfl⟩))
      (List.Forall₂.cons (Or.inl rfl) List.Forall₂.nil))

/-- Claim C14. For every proof, root, key hash and value hash,
`Proof.VerifyMembership` returns `IncorrectProofType` if and only if the Membership
variant is not populated, and `Proof.VerifyNonMembership` returns
`IncorrectProofType` if and only if the NonMembership variant is not populated. This
holds for every sibling list and every witness node. -/
theorem Proof.Verify_incorrectProofType_iff (H : List Byte → Grug.Hash) (proof : Proof)
    (rootHash keyHash valueHash : Grug.Hash) :
    (proof.VerifyMembership H rootHash keyHash valueHash
          = Outcome.err Err.ErrIncorrectProofType
        ↔ proof.Membership = none)
      ∧ (proof.VerifyNonMembership H rootHash keyHash = Outcome.err Err.ErrIncorrectProofType
        ↔ proof.NonMembership = none) := by
  constructor
  · cases hm : proof.Membership with
    | none => simp [Proof.VerifyMembership, hm]
    | some membership =>
      simp only [Proof.VerifyMembership, hm, MembershipProof.VerifyMembership, reduceCtorEq,
        iff_false]
      rcases computeAndCompareRootHash_cases H rootHash keyHash.slice
          membership.SiblingHashes
          (LeafNode.Hash H { KeyHash := keyHash, ValueHash := valueHash }) with h | h | h <;>
        simp [h]
  · cases hn : proof.NonMembership with
    | none => simp [Proof.VerifyNonMembership, hn]
    | some nonMembership =>
      simp only [Proof.VerifyNonMembership, hn, reduceCtorEq, iff_false]
      exact VerifyNonMembership_ne_incorrectProofType H nonMembership rootHash keyHash

/-- Claim C15. For every JSON string whose content is valid standard base64,
`Hash.UnmarshalJSON` fails with `IncorrectHashLength` if and only if the decoded
byte count is not exactly 32; when the count is 32 it succeeds and the hash holds
exactly the decoded bytes, and on failure the receiver is left unchanged. -/
theorem UnmarshalJSON_incorrectHashLength_iff (codec : Codec) (h : Hash) (data : List Byte)
    (s : GoString) (decoded : List Byte) (hjson : codec.jsonUnmarshal data = some s)
    (hb64 : codec.base64DecodeString s = some decoded) :
    ((Hash.UnmarshalJSON codec h data).2 = UnmarshalOutcome.err Err.ErrIncorrectHashLength
        ↔ decoded.length ≠ 32)
      ∧ (decoded.length = 32
          → (Hash.UnmarshalJSON codec h data).2 = UnmarshalOutcome.nil
            ∧ (Hash.UnmarshalJSON codec h data).1.bytes = decoded)
      ∧ ((Hash.UnmarshalJSON codec h data).2 ≠ UnmarshalOutcome.nil
          → (Hash.UnmarshalJSON codec h data).1 = h) := by
  have hcases := UnmarshalJSON_of_decoded codec h data s decoded hjson hb64
  refine ⟨?_, hcases.2, ?_⟩
  · constructor
    · intro herr hlen
      rw [(hcases.2 hlen).1] at herr
      cases herr
    · intro hlen
      rw [hcases.1 hlen]
  · intro hfail
    by_cases hlen : decoded.length = 32
    · exact absurd (hcases.2 hlen).1 hfail
    · rw [hcases.1 hlen]

/-- Witness of `UnmarshalJSON_incorrectHashLength_iff` under `sampleCodec`: the
JSON string `"AQID"`, whose content decodes to the three bytes `01 02 03`. -/
theorem UnmarshalJSON_incorrectHashLength_iff_witness :
    ((Hash.UnmarshalJSON sampleCodec (constHash 9) [34, 65, 81, 73, 68, 34]).2
          = UnmarshalOutcome.err Err.ErrIncorrectHashLength
        ↔ ([1, 2, 3] : List Byte).length ≠ 32)
      ∧ (([1, 2, 3] : List Byte).length = 32
          → (Hash.UnmarshalJSON sampleCodec (constHash 9) [34, 65, 81, 73, 68, 34]).2
              = UnmarshalOutcome.nil
            ∧ (Hash.UnmarshalJSON sampleCodec (constHash 9) [34, 65, 81, 73, 68, 34]).1.bytes
              = [1, 2, 3])
      ∧ ((Hash.UnmarshalJSON sampleCodec (constHash 9) [34, 65, 81, 73, 68, 34]).2
            ≠ UnmarshalOutcome.nil
          → (Hash.UnmarshalJSON sampleCodec (constHash 9) [34, 65, 81, 73, 68, 34]).1
            = constHash 9) :=
  UnmarshalJSON_incorrectHashLength_iff sampleCodec (constHash 9) [34, 65, 81, 73, 68, 34]
    [65, 81, 73, 68] [1, 2, 3] (by decide) (by decide)

/-- Claim C16. For every `Node`, `Node.Validate` fails with `MalformedProof` if and
only if it is not the case that exactly one of `Internal` and `Leaf` is populated:
it fails when both are absent and when both are present, and returns `nil`
otherwise. -/
theorem Node.Validate_malformed_iff (node : Node) :
    (node.Validate = Outcome.err Err.ErrMalformedProof
        ↔ ¬ ((node.Internal ≠ none ∧ node.Leaf = none)
              ∨ (node.Internal = none ∧ node.Leaf ≠ none)))
      ∧ (node.Validate = Outcome.nil
        ↔ ((node.Internal ≠ none ∧ node.Leaf = none)
              ∨ (node.Internal = none ∧ node.Leaf ≠ none)))
      ∧ (node.Internal = none ∧ node.Leaf = none
          → node.Validate = Outcome.err Err.ErrMalformedProof)
      ∧ (node.Internal ≠ none ∧ node.Leaf ≠ none
          → node.Validate = Outcome.err Err.ErrMalformedProof) := by
  cases node with
  | mk internal leaf => cases internal <;> cases leaf <;> simp [Node.Validate]

/-- Claim C17. For every root, key hash and non-membership proof with sibling
list of length `L` (`L < 256` for an Internal witness, `L ≤ 256` for a Leaf witness) on
which neither `UnexpectedChild` nor `NotCommonPrefix` is raised,
`VerifyNonMembership` succeeds exactly when the root equals the bottom-up fold,
with sides chosen by the bits of the target key hash, started from the hash of the
witness node, and otherwise returns `RootHashMismatch`; with `L = 0` the witness
hash is compared to the root unchanged. -/
theorem VerifyNonMembership_iff_foldedRoot (H : List Byte → Hash)
    (nonMemberProof : NonMembershipProof) (rootHash keyHash start : Hash)
    (hstart : witnessStart H nonMemberProof.Node = some start)
    (hL : nonMemberProof.SiblingHashes.length ≤ 256)
    (hI : nonMemberProof.Node.Internal ≠ none → nonMemberProof.SiblingHashes.length < 256)
    (hU : nonMemberProof.VerifyNonMembership H rootHash keyHash
            ≠ Outcome.err Err.ErrUnexpectedChild)
    (hN : nonMemberProof.VerifyNonMembership H rootHash keyHash
            ≠ Outcome.err Err.ErrNotCommonPrefix) :
    (nonMemberProof.VerifyNonMembership H rootHash keyHash = Outcome.nil
        ↔ rootHash = foldedRoot H keyHash.slice nonMemberProof.SiblingHashes start)
      ∧ (rootHash ≠ foldedRoot H keyHash.slice nonMemberProof.SiblingHashes start
          → nonMemberProof.VerifyNonMembership H rootHash keyHash
              = Outcome.err Err.ErrRootHashMismatch)
      ∧ (nonMemberProof.SiblingHashes.length = 0
          → (nonMemberProof.VerifyNonMembership H rootHash keyHash = Outcome.nil
              ↔ rootHash = start)) := by
  have hb : nonMemberProof.SiblingHashes.length ≤ 8 * keyHash.slice.length := by
    rw [Hash.slice_length]; omega
  have hrun := VerifyNonMembership_of_no_early_error H nonMemberProof rootHash keyHash start
    hstart hL hI hU hN
  rw [computeAndCompareRootHash_eq H rootHash keyHash.slice _ start hb] at hrun
  have hiff : nonMemberProof.VerifyNonMembership H rootHash keyHash = Outcome.nil
      ↔ rootHash = foldedRoot H keyHash.slice nonMemberProof.SiblingHashes start := by
    rw [hrun]
    constructor
    · intro h
      by_contra hne
      rw [if_neg (fun e => hne e.symm)] at h
      cases h
    · intro h
      rw [if_pos h.symm]
  refine ⟨hiff, ?_, ?_⟩
  · intro hne
    rw [hrun, if_neg (fun e => hne e.symm)]
  · intro h0
    have hnil : nonMemberProof.SiblingHashes = [] := List.length_eq_zero.mp h0
    have hfold : foldedRoot H keyHash.slice nonMemberProof.SiblingHashes start = start := by
      rw [hnil]; rfl
    rw [hiff, hfold]

/-- Witness of `VerifyNonMembership_iff_foldedRoot`: an Internal witness with an
absent left child, one sibling, and a key hash whose bit at index 1 is 0. -/
theorem VerifyNonMembership_iff_foldedRoot_witness :
    (NonMembershipProof.VerifyNonMembership sampleH
          { Node := { Internal := some { LeftHash := none, RightHash := some (constHash 3) },
                      Leaf := none },
            SiblingHashes := [some (constHash 7)] } (constHash 1) (firstByteHash 1)
          = Outcome.nil
        ↔ constHash 1 = foldedRoot sampleH (firstByteHash 1).slice [some (constHash 7)]
            (InternalNode.Hash sampleH { LeftHash := none, RightHash := some (constHash 3) }))
      ∧ (constHash 1 ≠ foldedRoot sampleH (firstByteHash 1).slice [some (constHash 7)]
            (InternalNode.Hash sampleH { LeftHash := none, RightHash := some (constHash 3) })
          → NonMembershipProof.VerifyNonMembership sampleH
              { Node := { Internal := some { LeftHash := none, RightHash := some (constHash 3) },
                          Leaf := none },
                SiblingHashes := [some (constHash 7)] } (constHash 1) (firstByteHash 1)
              = Outcome.err Err.ErrRootHashMismatch)
      ∧ ([some (constHash 7)].length = 0
          → (NonMembershipProof.VerifyNonMembership sampleH
                { Node := { Internal := some { LeftHash := none, RightHash := some (constHash 3) },
                            Leaf := none },
                  SiblingHashes := [some (constHash 7)] } (constHash 1) (firstByteHash 1)
                = Outcome.nil
              ↔ constHash 1
                = InternalNode.Hash sampleH
                    { LeftHash := none, RightHash := some (constHash 3) })) :=
  VerifyNonMembership_iff_foldedRoot sampleH
    { Node := { Internal := some { LeftHash := none, RightHash := some (constHash 3) },
                Leaf := none },
      SiblingHashes := [some (constHash 7)] } (constHash 1) (firstByteHash 1)
    (InternalNode.Hash sampleH { LeftHash := none, RightHash := some (constHash 3) })
    rfl (by decide) (fun _ => by decide) (by decide) (by decide)

/-- Claim C18. Assume `H` has no collision among the byte strings hashed by the
two verifications, which holds in particular when `H` is injective on the 65-byte
node preimages. For every root, key hash, value hash and two membership proofs
with sibling lists of the same length `L ≤ 256`: if both verify, then at every depth
the two sibling entries are equal as digests-or-zero; equivalently, when the second
list differs from a verifying one at some depth, as digest-or-zero,
`VerifyMembership` on it returns `RootHashMismatch`. -/
theorem VerifyMembership_siblings_unique (H : List Byte → Hash)
    (memberProof memberProof' : MembershipProof) (rootHash keyHash valueHash : Hash)
    (hlen : memberProof.SiblingHashes.length = memberProof'.SiblingHashes.length)
    (hL : memberProof.SiblingHashes.length ≤ 256)
    (hH : CollisionFreeOn H (membershipPreimages H memberProof keyHash valueHash
            ++ membershipPreimages H memberProof' keyHash valueHash))
    (hok : memberProof.VerifyMembership H rootHash keyHash valueHash = Outcome.nil) :
    (memberProof'.VerifyMembership H rootHash keyHash valueHash = Outcome.nil
        → ∀ d, d < memberProof.SiblingHashes.length
            → orZero (memberProof.SiblingHashes.get? d).join
              = orZero (memberProof'.SiblingHashes.get? d).join)
      ∧ ((∃ d, d < memberProof.SiblingHashes.length
            ∧ orZero (memberProof.SiblingHashes.get? d).join
              ≠ orZero (memberProof'.SiblingHashes.get? d).join)
          → memberProof'.VerifyMembership H rootHash keyHash valueHash
              = Outcome.err Err.ErrRootHashMismatch) := by
  have hb : memberProof.SiblingHashes.length ≤ 8 * keyHash.slice.length := by
    rw [Hash.slice_length]; omega
  have hb' : memberProof'.SiblingHashes.length ≤ 8 * keyHash.slice.length := by
    rw [Hash.slice_length]; omega
  have hloop := computeRootLoop_eq_foldl H keyHash.slice memberProof.SiblingHashes
    memberProof.SiblingHashes.length (le_refl _) hb
    (LeafNode.Hash H { KeyHash := keyHash, ValueHash := valueHash })
  have hloop' := computeRootLoop_eq_foldl H keyHash.slice memberProof'.SiblingHashes
    memberProof'.SiblingHashes.length (le_refl _) hb'
    (LeafNode.Hash H { KeyHash := keyHash, ValueHash := valueHash })
  simp only [MembershipProof.VerifyMembership] at hok ⊢
  rw [computeAndCompareRootHash_eq H rootHash keyHash.slice _ _ hb] at hok
  rw [computeAndCompareRootHash_eq H rootHash keyHash.slice _ _ hb']
  have hroot : foldedRoot H keyHash.slice memberProof.SiblingHashes
      (LeafNode.Hash H { KeyHash := keyHash, ValueHash := valueHash }) = rootHash := by
    by_contra hne
    rw [if_neg hne] at hok
    cases hok
  have hfirst : foldedRoot H keyHash.slice memberProof'.SiblingHashes
        (LeafNode.Hash H { KeyHash := keyHash, ValueHash := valueHash }) = rootHash
      → ∀ d, d < memberProof.SiblingHashes.length
          → orZero (memberProof.SiblingHashes.get? d).join
            = orZero (memberProof'.SiblingHashes.get? d).join := by
    intro hroot'
    have hsame : computeRootLoop H keyHash.slice memberProof.SiblingHashes
          memberProof.SiblingHashes.length
          (LeafNode.Hash H { KeyHash := keyHash, ValueHash := valueHash })
        = computeRootLoop H keyHash.slice memberProof'.SiblingHashes
          memberProof.SiblingHashes.length
          (LeafNode.Hash H { KeyHash := keyHash, ValueHash := valueHash }) := by
      have hloop'' : computeRootLoop H keyHash.slice memberProof'.SiblingHashes
            memberProof.SiblingHashes.length
            (LeafNode.Hash H { KeyHash := keyHash, ValueHash := valueHash })
          = some (foldedRoot H keyHash.slice memberProof'.SiblingHashes
              (LeafNode.Hash H { KeyHash := keyHash, ValueHash := valueHash })) := by
        rw [hlen]; exact hloop'
      rw [hloop, hloop'']
      exact congrArg some (hroot.trans hroot'.symm)
    have hsub : CollisionFreeOn H
        (loopPreimages H keyHash.slice memberProof.SiblingHashes
            memberProof.SiblingHashes.length
            (LeafNode.Hash H { KeyHash := keyHash, ValueHash := valueHash })
          ++ loopPreimages H keyHash.slice memberProof'.SiblingHashes
            memberProof.SiblingHashes.length
            (LeafNode.Hash H { KeyHash := keyHash, ValueHash := valueHash })) := by
      apply hH.mono
      intro p hp
      simp only [membershipPreimages, List.mem_append, List.mem_cons, ← hlen] at hp ⊢
      rcases hp with hp | hp
      · exact Or.inl (Or.inr hp)
      · exact Or.inr (Or.inr hp)
    exact (computeRootLoop_siblings_unique H keyHash.slice memberProof.SiblingHashes
      memberProof'.SiblingHashes memberProof.SiblingHashes.length (le_refl _) (by omega) hb
      _ _ hsub hsame).2
  constructor
  · intro h
    apply hfirst
    by_contra hne
    rw [if_neg hne] at h
    cases h
  · rintro ⟨d, hd, hdiff⟩
    by_cases hroot' : foldedRoot H keyHash.slice memberProof'.SiblingHashes
        (LeafNode.Hash H { KeyHash := keyHash, ValueHash := valueHash }) = rootHash
    · exact absurd (hfirst hroot' d hd) hdiff
    · rw [if_neg hroot']

/-- Witness of `VerifyMembership_siblings_unique` under the digest function
`sampleH`: a verifying one-sibling proof and the proof with that sibling
changed. -/
theorem VerifyMembership_siblings_unique_witness :
    (MembershipProof.VerifyMembership sampleH { SiblingHashes := [some (constHash 5)] }
          (InternalNode.Hash sampleH
            { LeftHash := some (LeafNode.Hash sampleH
                { KeyHash := firstByteHash 2, ValueHash := constHash 4 }),
              RightHash := some (constHash 7) })
          (firstByteHash 2) (constHash 4) = Outcome.nil
        → ∀ d, d < [some (constHash 7)].length
            → orZero ([some (constHash 7)].get? d).join
              = orZero ([some (constHash 5)].get? d).join)
      ∧ ((∃ d, d < [some (constHash 7)].length
            ∧ orZero ([some (constHash 7)].get? d).join
              ≠ orZero ([some (constHash 5)].get? d).join)
          → MembershipProof.VerifyMembership sampleH { SiblingHashes := [some (constHash 5)] }
              (InternalNode.Hash sampleH
                { LeftHash := some (LeafNode.Hash sampleH
                    { KeyHash := firstByteHash 2, ValueHash := constHash 4 }),
                  RightHash := some (constHash 7) })
              (firstByteHash 2) (constHash 4)
              = Outcome.err Err.ErrRootHashMismatch) :=
  VerifyMembership_siblings_unique sampleH { SiblingHashes := [some (constHash 7)] }
    { SiblingHashes := [some (constHash 5)] }
    (InternalNode.Hash sampleH
      { LeftHash := some (LeafNode.Hash sampleH
          { KeyHash := firstByteHash 2, ValueHash := constHash 4 }),
        RightHash := some (constHash 7) })
    (firstByteHash 2) (constHash 4) rfl (by decide) (by decide) (by decide)

/-- Claim C19. For every 32-byte hash `h`, `Hash.UnmarshalJSON` applied to the
output of `h.MarshalJSON()` succeeds and yields `h`, whatever the receiver held
before. The library calls are taken with their contracts on the encoding of `h`:
`json.Unmarshal` returns the string that `json.Marshal` encoded, and `DecodeString`
returns the bytes that `EncodeToString` encoded. -/
theorem UnmarshalJSON_MarshalJSON_roundtrip (codec : Codec) (h receiver : Hash)
    (data : List Byte) (hm : h.MarshalJSON codec = some data)
    (hu : ∀ encoded, codec.jsonMarshal (codec.base64EncodeToString h.slice) = some encoded
            → codec.jsonUnmarshal encoded = some (codec.base64EncodeToString h.slice))
    (hd : codec.base64DecodeString (codec.base64EncodeToString h.slice) = some h.slice) :
    Hash.UnmarshalJSON codec receiver data = (h, UnmarshalOutcome.nil) := by
  have hcases := (UnmarshalJSON_of_decoded codec receiver data _ h.slice (hu data hm) hd).2
    (Hash.slice_length h)
  have hfst : (Hash.UnmarshalJSON codec receiver data).1 = h := hash_eq_of_bytes_eq hcases.2
  exact Prod.ext hfst hcases.1

/-- Witness of `UnmarshalJSON_MarshalJSON_roundtrip` under `sampleCodec`: the
hash whose first byte is `0xFF`, decoded into a receiver that held another
hash. -/
theorem UnmarshalJSON_MarshalJSON_roundtrip_witness :
    Hash.UnmarshalJSON sampleCodec (constHash 9)
        (34 :: (sampleBase64Encode (firstByteHash 255).slice ++ [34]))
      = (firstByteHash 255, UnmarshalOutcome.nil) :=
  UnmarshalJSON_MarshalJSON_roundtrip sampleCodec (firstByteHash 255) (constHash 9)
    (34 :: (sampleBase64Encode (firstByteHash 255).slice ++ [34])) rfl
    (fun encoded hencoded => by cases hencoded; decide) (by decide)

end Grug
